import Mathlib

/-!
# mini_http.c : a shallow embedding of the request-to-response pipeline

C strings are modelled as lists of byte values (`List Nat`, each byte in `0..255`); the
terminating NUL is implicit, and a NUL byte inside a list ends the string wherever the C code
reads it as a string (`cstr`).  Fixed-size local buffers keep their capacity: a write past the
end of one is reported as `CResult.undefined` instead of being given a meaning.
-/

namespace MiniHttp

/-! ## Bytes and C strings -/

/-- The bytes of an ASCII string literal. -/
def bytes (s : String) : List Nat := s.toList.map Char.toNat

/-- The C string stored at the start of a buffer: the bytes before the first NUL. -/
def cstr : List Nat → List Nat
  | [] => []
  | c :: cs => if c = 0 then [] else c :: cstr cs

/-- Outcome of running C code that may write past the end of a local array. -/
inductive CResult (α : Type) where
  | undefined : CResult α
  | returns : α → CResult α
  deriving DecidableEq, Repr

/-! ## get_mime_type (mini_http.c lines 23-39) -/

/-- `strrchr(s, c)`: the suffix of `s` that starts at the last occurrence of `c`. -/
def strrchr : List Nat → Nat → Option (List Nat)
  | [], _ => none
  | x :: xs, c =>
    match strrchr xs c with
    | some r => some r
    | none => if x = c then some (x :: xs) else none

/-- The function `get_mime_type`: the extension is what follows the last `'.'` of the path. -/
def get_mime_type (path : List Nat) : List Nat :=
  match strrchr path 46 with
  | none => bytes "application/octet-stream"
  | some dot =>
    let ext := dot.tail
    if ext = bytes "html" then bytes "text/html; charset=utf-8"
    else if ext = bytes "htm" then bytes "text/html; charset=utf-8"
    else if ext = bytes "css" then bytes "text/css"
    else if ext = bytes "js" then bytes "application/javascript"
    else if ext = bytes "png" then bytes "image/png"
    else if ext = bytes "jpg" then bytes "image/jpeg"
    else if ext = bytes "jpeg" then bytes "image/jpeg"
    else if ext = bytes "gif" then bytes "image/gif"
    else if ext = bytes "txt" then bytes "text/plain; charset=utf-8"
    else if ext = bytes "json" then bytes "application/json"
    else if ext = bytes "svg" then bytes "image/svg+xml"
    else bytes "application/octet-stream"

/-! ## url_decode (mini_http.c lines 42-58) -/

/-- The C library's `isxdigit` on a byte: `0-9`, `A-F`, `a-f` (no byte above 127 is one). -/
def isxdigit (c : Nat) : Bool :=
  (48 ≤ c && c ≤ 57) || (65 ≤ c && c ≤ 70) || (97 ≤ c && c ≤ 102)

/-- The nibble expression of lines 46-47:
`(a >= 'a') ? (a - 'a' + 10) : ((a >= 'A') ? (a - 'A' + 10) : (a - '0'))`. -/
def hex_nibble (a : Nat) : Nat :=
  if a ≥ 97 then a - 97 + 10 else if a ≥ 65 then a - 65 + 10 else a - 48

/-- The function `url_decode`: the bytes written to `dst` before the final terminator.
The loop stops at the NUL that ends `src`; `(a = src[1]) && (b = src[2])` holds when two more
non-NUL bytes follow the `'%'`.  The three `'%'` cases that do not decode all copy the `'%'`
and go on at the next byte. -/
def url_decode : List Nat → List Nat
  | [] => []
  | c :: rest =>
    if c = 0 then []
    else if c = 37 then
      match rest with
      | a :: b :: rest2 =>
        if a ≠ 0 ∧ b ≠ 0 ∧ isxdigit a = true ∧ isxdigit b = true then
          ((16 * hex_nibble a + hex_nibble b) % 256) :: url_decode rest2
        else 37 :: url_decode (a :: b :: rest2)
      | [a] => 37 :: url_decode [a]
      | [] => [37]
    else if c = 43 then 32 :: url_decode rest
    else c :: url_decode rest

/-! ## safe_path (mini_http.c lines 61-97) -/

/-- The tokens that successive `strtok(_, "/")` calls return: the maximal runs of bytes other
than `'/'`, in order.  `tok` is the token being read. -/
def strtok_scan : List Nat → List Nat → List (List Nat)
  | tok, [] => if tok = [] then [] else [tok]
  | tok, c :: cs =>
    if c = 47 then
      if tok = [] then strtok_scan [] cs else tok :: strtok_scan [] cs
    else strtok_scan (tok ++ [c]) cs

/-- All results of `strtok(dec, "/")`, `strtok(NULL, "/")`, ... up to the first `NULL`. -/
def strtok_tokens (s : List Nat) : List (List Nat) := strtok_scan [] s

/-- The `while (tok && np < 255)` loop of lines 77-86; `parts` holds `parts[0..np-1]`. -/
def safe_path_loop : List (List Nat) → List (List Nat) → List (List Nat)
  | [], parts => parts
  | tok :: toks, parts =>
    if parts.length < 255 then
      if tok = bytes "" ∨ tok = bytes "." then safe_path_loop toks parts
      else if tok = bytes ".." then
        safe_path_loop toks (if parts.length > 0 then parts.dropLast else parts)
      else safe_path_loop toks (parts ++ [tok])
    else parts

/-- The `for` loop of lines 88-91: the parts with a `'/'` between neighbours. -/
def join_parts : List (List Nat) → List Nat
  | [] => []
  | [p] => p
  | p :: q :: ps => p ++ 47 :: join_parts (q :: ps)

/-- The parts left on the stack when the loop of `safe_path` ends, for a decoded string that
is neither empty nor `"/"`; line 71 overwrites a first byte other than `'/'`. -/
def safe_path_parts (dec : List Nat) : List (List Nat) :=
  let dec1 := if dec.head? ≠ some 47 then 47 :: dec.tail else dec
  safe_path_loop (strtok_tokens dec1) []

/-- The string assembled in `tmp` by lines 87-92. -/
def safe_path_tmp (dec : List Nat) : List Nat :=
  let parts := safe_path_parts dec
  bytes "./" ++ join_parts parts ++ (if parts.length = 0 then bytes "index.html" else [])

/-- The function `safe_path`: the return value and the content of `out` afterwards.
`dec` and `tmp` are `char[1024]`; a string of 1024 or more bytes does not fit either. -/
def safe_path (out inp : List Nat) : CResult (Int × List Nat) :=
  let written := url_decode inp
  if written.length + 1 > 1024 then CResult.undefined
  else
    let dec := cstr written
    if dec = bytes "/" ∨ dec.length = 0 then CResult.returns (0, bytes "./index.html")
    else
      let tmp := safe_path_tmp dec
      if tmp.length + 1 > 1024 then CResult.undefined
      else if tmp.length ≥ 1023 then CResult.returns (-1, out)
      else CResult.returns (0, tmp)

/-- The path that `safe_path` has assembled when it reaches the length check of line 94, or
`./index.html` when it returns at line 68. -/
def safe_path_assembled (inp : List Nat) : List Nat :=
  let dec := cstr (url_decode inp)
  if dec = bytes "/" ∨ dec.length = 0 then bytes "./index.html" else safe_path_tmp dec

/-! ## handle_connection (mini_http.c lines 99-191) -/

/-- The C library's `isspace` in the C locale: space, `\t`, `\n`, `\v`, `\f`, `\r`. -/
def isspace (c : Nat) : Bool := c = 32 || (9 ≤ c && c ≤ 13)

/-- One `%Ns` conversion of `sscanf`: skip white space, then store at most `width` bytes that
are not white space.  It fails when the input ends first; otherwise it gives the stored field
and the unread input. -/
def scan_s (width : Nat) (s : List Nat) : Option (List Nat × List Nat) :=
  let s1 := s.dropWhile isspace
  let field := (s1.takeWhile (fun c => !isspace c)).take width
  if field = [] then none else some (field, s1.drop field.length)

/-- The call `sscanf(buf, "%15s %1023s %31s", method, path, version)` of line 109: the three
fields when it returns 3, `none` when it returns anything else. -/
def sscanf_request (buf : List Nat) : Option (List Nat × List Nat × List Nat) :=
  match scan_s 15 (cstr buf) with
  | none => none
  | some (method, r1) =>
    match scan_s 1023 r1 with
    | none => none
    | some (path, r2) =>
      match scan_s 31 r2 with
      | none => none
      | some (version, _) => some (method, path, version)

/-- What `fstat` reports and the code reads: `S_ISREG(st.st_mode)` and `st.st_size`. -/
structure Stat where
  is_reg : Bool
  st_size : Nat
  deriving DecidableEq, Repr

/-- An open file descriptor: the result of `fstat` on it and the bytes `read` delivers. -/
structure OpenFile where
  fstat : Option Stat
  content : List Nat
  deriving DecidableEq, Repr

/-- The filesystem as `open(path, O_RDONLY)` sees it (`none`: the call returns -1). -/
abbrev FileSystem := List Nat → Option OpenFile

/-- The conversions `%zu` and `%lld` for a value that is not negative. -/
def decimal (n : Nat) : List Nat := (Nat.toDigits 10 n).map Char.toNat

/-- The bound of `snprintf(buf, size, ...)`: at most `size - 1` bytes are stored. -/
def snprintf (size : Nat) (s : List Nat) : List Nat := s.take (size - 1)

/-- The response of lines 111 and 129. -/
def resp_400 : List Nat :=
  bytes "HTTP/1.1 400 Bad Request\r\nConnection: close\r\nContent-Length: 0\r\n\r\n"

/-- The response of line 118. -/
def resp_405 : List Nat :=
  bytes "HTTP/1.1 405 Method Not Allowed\r\nAllow: GET\r\nConnection: close\r\nContent-Length: 0\r\n\r\n"

/-- The response of line 160. -/
def resp_403 : List Nat :=
  bytes "HTTP/1.1 403 Forbidden\r\nConnection: close\r\nContent-Length: 0\r\n\r\n"

/-- The body of line 138. -/
def notfound_body : List Nat :=
  bytes "<html><body><h1>404 Not Found</h1></body></html>\n"

/-- The header block of lines 140-146. -/
def header_404 : List Nat :=
  snprintf 256
    (bytes "HTTP/1.1 404 Not Found\r\n"
      ++ bytes "Content-Type: text/html; charset=utf-8\r\n"
      ++ bytes "Content-Length: " ++ decimal notfound_body.length ++ bytes "\r\n"
      ++ bytes "Connection: close\r\n"
      ++ bytes "\r\n")

/-- The header block of lines 167-173. -/
def header_200 (mime : List Nat) (st_size : Nat) : List Nat :=
  snprintf 512
    (bytes "HTTP/1.1 200 OK\r\n"
      ++ bytes "Content-Type: " ++ mime ++ bytes "\r\n"
      ++ bytes "Content-Length: " ++ decimal st_size ++ bytes "\r\n"
      ++ bytes "Connection: close\r\n"
      ++ bytes "\r\n")

/-- What one call of `handle_connection` does on the client socket: `sent head body` gives
the bytes of the first `send` and the bytes of all later ones, when no `send` fails. -/
inductive Outcome where
  | undefined : Outcome
  | closed : Outcome
  | sent : List Nat → List Nat → Outcome
  deriving DecidableEq, Repr

/-- The function `handle_connection`; `buf` is what `recv` stored (`n` bytes, none when
`n <= 0`) and `fs` the filesystem.  `file_path` starts out unset (`[]`). -/
def handle_connection (fs : FileSystem) (buf : List Nat) : Outcome :=
  if buf.length ≤ 0 then Outcome.closed
  else
    match sscanf_request buf with
    | none => Outcome.sent resp_400 []
    | some (method, path, _) =>
      if method ≠ bytes "GET" then Outcome.sent resp_405 []
      else
        let path_copy := cstr (path.take 1023)
        match safe_path [] path_copy with
        | CResult.undefined => Outcome.undefined
        | CResult.returns (ret, file_path) =>
          if ret < 0 then Outcome.sent resp_400 []
          else
            match fs file_path with
            | none => Outcome.sent header_404 notfound_body
            | some file =>
              match file.fstat with
              | none => Outcome.closed
              | some st =>
                if st.is_reg = false then Outcome.sent resp_403 []
                else Outcome.sent (header_200 (get_mime_type file_path) st.st_size) file.content

/-- The three digits of the status line `HTTP/1.1 ddd ...` of an emitted response. -/
def status (o : Outcome) : Option (List Nat) :=
  match o with
  | Outcome.sent head _ => some ((head.drop 9).take 3)
  | _ => none

/-- The header block `head` has a header line with this name. -/
def has_header (name head : List Nat) : Prop :=
  (bytes "\r\n" ++ name ++ bytes ": ") <:+: head

instance (name head : List Nat) : Decidable (has_header name head) := by
  unfold has_header; infer_instance

/-- The served root of the specification's end-to-end scenarios: a regular `index.html` of
10 bytes, a regular `app.js` of 500 bytes, and `style.css` present as a directory. -/
def scenario_fs : FileSystem := fun p =>
  if p = bytes "./index.html" then some ⟨some ⟨true, 10⟩, bytes "<p>hi</p>\n"⟩
  else if p = bytes "./app.js" then some ⟨some ⟨true, 500⟩, List.replicate 500 59⟩
  else if p = bytes "./style.css" then some ⟨some ⟨false, 4096⟩, []⟩
  else none

/-! ## Definitions that follow the words of the specification -/

/-- Splitting a byte string at every byte that satisfies `d`; empty pieces are kept. -/
def split_by (d : Nat → Bool) : List Nat → List (List Nat)
  | [] => [[]]
  | c :: cs =>
    if d c then [] :: split_by d cs
    else
      match split_by d cs with
      | [] => [[c]]
      | s :: ss => (c :: s) :: ss

/-- Specification 4.1 step 3: the segments of a decoded target, without the empty ones and
the `.` ones. -/
def spec_segments (t : List Nat) : List (List Nat) :=
  (split_by (fun c => c == 47) t).filter (fun s => s ≠ [] ∧ s ≠ bytes ".")

/-- Specification 4.1 step 4: left to right, `..` pops (nothing on an empty stack), any other
segment is pushed. -/
def spec_stack : List (List Nat) → List (List Nat) → List (List Nat)
  | [], st => st
  | seg :: segs, st =>
    if seg = bytes ".." then spec_stack segs st.dropLast else spec_stack segs (st ++ [seg])

/-- Specification 4.1 step 5: the stack joined with `/` under the root `.`, and `index.html`
under the root when the stack is empty. -/
def spec_resolve (t : List Nat) : List Nat :=
  let st := spec_stack (spec_segments t) []
  if st = [] then bytes "./index.html" else bytes "./" ++ List.intercalate (bytes "/") st

/-- Specification 4.3: the white-space-delimited tokens of a received buffer. -/
def ws_tokens (buf : List Nat) : List (List Nat) :=
  (split_by isspace (cstr buf)).filter (fun s => s ≠ [])

/-- Specification 4.2: the table of extensions. -/
def mime_table : List (List Nat × List Nat) :=
  [ (bytes "html", bytes "text/html; charset=utf-8"),
    (bytes "htm", bytes "text/html; charset=utf-8"),
    (bytes "css", bytes "text/css"),
    (bytes "js", bytes "application/javascript"),
    (bytes "png", bytes "image/png"),
    (bytes "jpg", bytes "image/jpeg"),
    (bytes "jpeg", bytes "image/jpeg"),
    (bytes "gif", bytes "image/gif"),
    (bytes "txt", bytes "text/plain; charset=utf-8"),
    (bytes "json", bytes "application/json"),
    (bytes "svg", bytes "image/svg+xml") ]

/-- Specification 4.2: the table entry of an extension, `application/octet-stream` without
one. -/
def spec_mime (ext : List Nat) : List Nat :=
  (mime_table.lookup ext).getD (bytes "application/octet-stream")

/-- A hex digit: `0-9`, `a-f` or `A-F`. -/
def HexDigit (c : Nat) : Prop :=
  (48 ≤ c ∧ c ≤ 57) ∨ (97 ≤ c ∧ c ≤ 102) ∨ (65 ≤ c ∧ c ≤ 70)

instance (c : Nat) : Decidable (HexDigit c) := by
  unfold HexDigit; infer_instance

/-- The value of a hex digit, the same for both cases of a letter. -/
def hex_value (c : Nat) : Nat :=
  if 48 ≤ c ∧ c ≤ 57 then c - 48
  else if 97 ≤ c ∧ c ≤ 102 then c - 97 + 10
  else if 65 ≤ c ∧ c ≤ 70 then c - 65 + 10
  else 0



/-- A part that `safe_path` keeps: not empty, without `'/'`, and neither `.` nor `..`. -/
def GoodPart (p : List Nat) : Prop :=
  p ≠ [] ∧ 47 ∉ p ∧ p ≠ bytes "." ∧ p ≠ bytes ".."

/-- The header block `head` has the header line `name: value`. -/
def has_header_value (name value head : List Nat) : Prop :=
  (bytes "\r\n" ++ name ++ bytes ": " ++ value ++ bytes "\r\n") <:+: head

instance (name value head : List Nat) : Decidable (has_header_value name value head) := by
  unfold has_header_value; infer_instance

/-! ## The streaming loop of handle_connection (mini_http.c lines 176-188) -/

/-- What the system calls of the streaming loop return: `read_ret k avail` is the value of
the `k`-th `read(fd, buf, sizeof(buf))` when `avail` bytes of the file are unread, and
`send_ret k len` the value of the `k`-th `send` when it is offered `len` bytes. -/
structure StreamEnv where
  read_ret : Nat → Nat → Int
  send_ret : Nat → Nat → Int

/-- The inner loop `while (w < r)`.  `pending` is `buf[w..r)`, `k` counts the `send` calls
and `out` collects the bytes the socket has accepted.  The result says whether the loop ended
with `w = r`; `none` means the fuel ran out before the loop ended. -/
def send_loop (env : StreamEnv) :
    Nat → Nat → List Nat → List Nat → Option (Bool × Nat × List Nat)
  | 0, _, _, _ => none
  | fuel + 1, k, pending, out =>
    if pending.length ≤ 0 then some (true, k, out)
    else
      let s := env.send_ret k pending.length
      if s < 0 then some (false, k + 1, out)
      else send_loop env fuel (k + 1) (pending.drop s.toNat) (out ++ pending.take s.toNat)

/-- The outer loop `while (1)`.  `file` is the unread part of the file, `kr` and `ks` count
the `read` and `send` calls; the result is every byte the socket accepted after the header
block.  The fuel bounds the iterations of both loops; `none` means it ran out. -/
def stream_loop (env : StreamEnv) :
    Nat → Nat → Nat → List Nat → List Nat → Option (List Nat)
  | 0, _, _, _, _ => none
  | fuel + 1, kr, ks, file, out =>
    let r := env.read_ret kr file.length
    if r ≤ 0 then some out
    else
      match send_loop env fuel ks (file.take r.toNat) out with
      | none => none
      | some (false, _, out1) => some out1
      | some (true, ks1, out1) =>
        stream_loop env fuel (kr + 1) ks1 (file.drop r.toNat) out1

/-! ## Facts about the embedding -/

theorem bytes_empty : bytes "" = [] := by decide
theorem bytes_dot : bytes "." = [46] := by decide
theorem bytes_dotdot : bytes ".." = [46, 46] := by decide
theorem bytes_slash : bytes "/" = [47] := by decide
theorem bytes_dotslash : bytes "./" = [46, 47] := by decide

theorem strtok_scan_mem (s : List Nat) :
    ∀ tok : List Nat, 47 ∉ tok → ∀ t ∈ strtok_scan tok s, t ≠ [] ∧ 47 ∉ t := by
  induction s with
  | nil =>
    intro tok htok t ht
    unfold strtok_scan at ht
    split at ht
    · simp at ht
    · simp at ht; subst ht; exact ⟨by assumption, htok⟩
  | cons c cs ih =>
    intro tok htok t ht
    unfold strtok_scan at ht
    by_cases hc : c = 47
    · simp only [hc, if_true] at ht
      by_cases hk : tok = []
      · simp only [hk, if_true] at ht
        exact ih [] (by simp) t ht
      · simp only [hk, if_false, List.mem_cons] at ht
        rcases ht with rfl | ht
        · exact ⟨hk, htok⟩
        · exact ih [] (by simp) t ht
    · simp only [hc, if_false] at ht
      refine ih (tok ++ [c]) ?_ t ht
      simp only [List.mem_append, List.mem_singleton, not_or]
      exact ⟨htok, fun h => hc h.symm⟩

theorem strtok_tokens_mem (s t : List Nat) (h : t ∈ strtok_tokens s) : t ≠ [] ∧ 47 ∉ t :=
  strtok_scan_mem s [] (by simp) t h

theorem safe_path_loop_good (toks : List (List Nat)) :
    ∀ parts : List (List Nat), (∀ t ∈ toks, t ≠ [] ∧ 47 ∉ t) → (∀ p ∈ parts, GoodPart p) →
      ∀ p ∈ safe_path_loop toks parts, GoodPart p := by
  induction toks with
  | nil => intro parts _ hp p h; unfold safe_path_loop at h; exact hp p h
  | cons tok toks ih =>
    intro parts ht hp p h
    have ht' : ∀ t ∈ toks, t ≠ [] ∧ 47 ∉ t := fun t m => ht t (List.mem_cons_of_mem _ m)
    unfold safe_path_loop at h
    split at h
    · split at h
      · exact ih parts ht' hp p h
      · split at h
        · refine ih _ ht' ?_ p h
          intro q hq
          split at hq
          · exact hp q (List.mem_of_mem_dropLast hq)
          · exact hp q hq
        · refine ih _ ht' ?_ p h
          intro q hq
          rcases List.mem_append.1 hq with hq | hq
          · exact hp q hq
          · rw [List.mem_singleton] at hq
            subst hq
            have := ht q (List.mem_cons_self _ _)
            rename_i h1 h2
            simp only [not_or] at h1
            exact ⟨this.1, this.2, h1.2, h2⟩
    · exact hp p h

theorem safe_path_parts_good (dec p : List Nat) (h : p ∈ safe_path_parts dec) : GoodPart p :=
  safe_path_loop_good _ [] (fun t m => strtok_tokens_mem _ t m) (by simp) p h

theorem split_by_ne_nil (d : Nat → Bool) (s : List Nat) : split_by d s ≠ [] := by
  cases s with
  | nil => simp [split_by]
  | cons c cs =>
    unfold split_by
    split
    · simp
    · split <;> simp

theorem split_by_append_clean (d : Nat → Bool) (p r h : List Nat) (t : List (List Nat))
    (hp : ∀ c ∈ p, d c = false) (hr : split_by d r = h :: t) :
    split_by d (p ++ r) = (p ++ h) :: t := by
  induction p with
  | nil => simpa using hr
  | cons c p ih =>
    have hc : d c = false := hp c (List.mem_cons_self _ _)
    have ih' := ih (fun x m => hp x (List.mem_cons_of_mem _ m))
    simp only [List.cons_append]
    unfold split_by
    simp [hc, ih']

theorem split_by_join_parts (parts : List (List Nat)) (hne : parts ≠ [])
    (hp : ∀ p ∈ parts, 47 ∉ p) :
    split_by (fun c => c == 47) (join_parts parts) = parts := by
  induction parts with
  | nil => exact absurd rfl hne
  | cons p ps ih =>
    have hclean : ∀ c ∈ p, (fun c => c == 47) c = false := by
      intro c hc
      have : c ≠ 47 := fun h => hp p (List.mem_cons_self _ _) (h ▸ hc)
      simpa using this
    cases ps with
    | nil =>
      unfold join_parts
      have := split_by_append_clean (fun c => c == 47) p [] [] [] hclean (by simp [split_by])
      simpa using this
    | cons q qs =>
      unfold join_parts
      have ih' := ih (by simp) (fun x m => hp x (List.mem_cons_of_mem _ m))
      have hr : split_by (fun c => c == 47) (47 :: join_parts (q :: qs)) = [] :: q :: qs := by
        rw [split_by]; simp [ih']
      have := split_by_append_clean (fun c => c == 47) p _ [] (q :: qs) hclean hr
      simpa using this

/-- C1. Whenever `safe_path` returns 0, the path it stores begins with `./` and its pieces
between `'/'` bytes are the single leading `.` followed by one or more segments, none of
which is empty, `.` or `..`. -/
theorem safe_path_root_confined (out inp p : List Nat)
    (h : safe_path out inp = CResult.returns (0, p)) :
    bytes "./" <+: p ∧
      ∃ segs : List (List Nat), split_by (fun c => c == 47) p = bytes "." :: segs ∧
        segs ≠ [] ∧ ∀ s ∈ segs, s ≠ [] ∧ s ≠ bytes "." ∧ s ≠ bytes ".." := by
  unfold safe_path at h
  simp only at h
  split at h
  · cases h
  · split at h
    · injection h with h
      injection h with _ h
      subst h
      exact ⟨by decide, [bytes "index.html"], by decide, by decide, by decide⟩
    · split at h
      · cases h
      · split at h
        · injection h with h
          injection h with h _
          exact absurd h (by decide)
        · injection h with h
          injection h with _ h
          subst h
          rename_i dec _ _ _
          unfold safe_path_tmp
          simp only
          by_cases hz : (safe_path_parts (cstr (url_decode inp))).length = 0
          · have hnil : safe_path_parts (cstr (url_decode inp)) = [] :=
              List.length_eq_zero.1 hz
            rw [hnil]
            exact ⟨by decide, [bytes "index.html"], by decide, by decide, by decide⟩
          · have hne : safe_path_parts (cstr (url_decode inp)) ≠ [] :=
              fun e => hz (by rw [e]; rfl)
            have hgood := safe_path_parts_good (cstr (url_decode inp))
            have hsplit := split_by_join_parts _ hne (fun q m => (hgood q m).2.1)
            simp only [hz, if_false, List.append_nil]
            refine ⟨⟨join_parts _, rfl⟩, safe_path_parts (cstr (url_decode inp)), ?_, hne,
              fun s m => ⟨(hgood s m).1, (hgood s m).2.2.1, (hgood s m).2.2.2⟩⟩
            rw [bytes_dotslash, bytes_dot]
            simp only [List.cons_append, List.nil_append]
            rw [split_by]
            simp only [show ((46 : Nat) == 47) = false from by decide]
            rw [split_by]
            simp [hsplit]

theorem safe_path_root_confined_witness :
    safe_path [] (bytes "/../../../etc/passwd") = CResult.returns (0, bytes "./etc/passwd") ∧
    safe_path [] (bytes "/a/../../b") = CResult.returns (0, bytes "./b") ∧
    safe_path [] (bytes "/..%2f..%2fetc") = CResult.returns (0, bytes "./etc") ∧
    (bytes "./" <+: bytes "./etc/passwd" ∧
      ∃ segs : List (List Nat),
        split_by (fun c => c == 47) (bytes "./etc/passwd") = bytes "." :: segs ∧
        segs ≠ [] ∧ ∀ s ∈ segs, s ≠ [] ∧ s ≠ bytes "." ∧ s ≠ bytes "..") :=
  ⟨by decide, by decide, by decide,
    safe_path_root_confined [] (bytes "/../../../etc/passwd") (bytes "./etc/passwd") (by decide)⟩



theorem url_decode_nil : url_decode [] = [] := by
  rw [url_decode.eq_def]

theorem url_decode_nul (rest : List Nat) : url_decode (0 :: rest) = [] := by
  rw [url_decode.eq_def]; simp

theorem url_decode_hex (a b : Nat) (rest : List Nat)
    (h : a ≠ 0 ∧ b ≠ 0 ∧ isxdigit a = true ∧ isxdigit b = true) :
    url_decode (37 :: a :: b :: rest)
      = ((16 * hex_nibble a + hex_nibble b) % 256) :: url_decode rest := by
  rw [url_decode.eq_def]; simp [h]

theorem url_decode_percent (rest : List Nat)
    (h : ∀ a b r, rest = a :: b :: r → ¬ (a ≠ 0 ∧ b ≠ 0 ∧ isxdigit a = true ∧ isxdigit b = true)) :
    url_decode (37 :: rest) = 37 :: url_decode rest := by
  rw [url_decode.eq_def]
  simp only [show ¬ ((37 : Nat) = 0) from by decide, if_false, if_true]
  match rest, h with
  | [], _ => simp [url_decode_nil]
  | [a], _ => rfl
  | a :: b :: r, h => simp only [h a b r rfl, if_false]

theorem url_decode_plus (rest : List Nat) : url_decode (43 :: rest) = 32 :: url_decode rest := by
  rw [url_decode.eq_def]; simp

theorem url_decode_other (c : Nat) (rest : List Nat) (h0 : c ≠ 0) (h37 : c ≠ 37)
    (h43 : c ≠ 43) : url_decode (c :: rest) = c :: url_decode rest := by
  rw [url_decode.eq_def]; simp [h0, h37, h43]

theorem url_decode_length_le (s : List Nat) : (url_decode s).length ≤ s.length := by
  induction s using url_decode.induct with
  | case1 => simp [url_decode_nil]
  | case2 rest => simp [url_decode_nul]
  | case3 a b rest2 hx _ ih => rw [url_decode_hex a b rest2 hx]; simp; omega
  | case4 a b rest2 hx _ ih =>
    rw [url_decode_percent _ (fun a' b' r e => by
      simp only [List.cons.injEq] at e; obtain ⟨rfl, rfl, rfl⟩ := e; exact hx)]
    simp only [List.length_cons] at ih ⊢
    omega
  | case5 a _ ih =>
    rw [url_decode_percent _ (fun a' b' r e => by simp at e)]
    simp only [List.length_cons] at ih ⊢
    omega
  | case6 => rw [url_decode_percent _ (fun a' b' r e => by simp at e)]; simp [url_decode_nil]
  | case7 rest _ _ ih => rw [url_decode_plus]; simp; omega
  | case8 c rest h0 h37 h43 ih => rw [url_decode_other c rest h0 h37 h43]; simp; omega

theorem cstr_of_no_nul (s : List Nat) (h : 0 ∉ s) : cstr s = s := by
  induction s with
  | nil => rfl
  | cons c cs ih =>
    have hc : c ≠ 0 := fun e => h (e ▸ List.mem_cons_self _ _)
    have := ih (fun m => h (List.mem_cons_of_mem _ m))
    simp [cstr, hc, this]

theorem strtok_scan_eq_split (s : List Nat) :
    ∀ (tok h : List Nat) (t : List (List Nat)), split_by (fun c => c == 47) s = h :: t →
      strtok_scan tok s = ((tok ++ h) :: t).filter (fun x => x ≠ []) := by
  induction s with
  | nil =>
    intro tok h t hs
    simp only [split_by, List.cons.injEq] at hs
    obtain ⟨rfl, rfl⟩ := hs
    unfold strtok_scan
    by_cases hk : tok = [] <;> simp [hk]
  | cons c cs ih =>
    intro tok h t hs
    obtain ⟨h', t', hcs⟩ : ∃ h' t', split_by (fun c => c == 47) cs = h' :: t' := by
      cases e : split_by (fun c => c == 47) cs with
      | nil => exact absurd e (split_by_ne_nil _ _)
      | cons a b => exact ⟨a, b, rfl⟩
    unfold strtok_scan
    by_cases hc : c = 47
    · subst hc
      rw [split_by] at hs
      simp only [beq_self_eq_true, if_true, List.cons.injEq] at hs
      obtain ⟨rfl, rfl⟩ := hs
      have h0 := ih [] h' t' hcs
      simp only [List.nil_append] at h0
      simp only [if_true, List.append_nil]
      by_cases hk : tok = []
      · simp [hk, h0, hcs]
      · simp [hk, h0, hcs]
    · rw [split_by] at hs
      have hb : (c == 47) = false := by simpa using hc
      simp only [hb, hcs] at hs
      simp only [Bool.false_eq_true, if_false, List.cons.injEq] at hs
      obtain ⟨rfl, rfl⟩ := hs
      simp only [hc, if_false]
      rw [ih (tok ++ [c]) h' t' hcs]
      simp

theorem strtok_tokens_eq_split (s : List Nat) :
    strtok_tokens s = (split_by (fun c => c == 47) s).filter (fun x => x ≠ []) := by
  cases e : split_by (fun c => c == 47) s with
  | nil => exact absurd e (split_by_ne_nil _ _)
  | cons a b => simpa using strtok_scan_eq_split s [] a b e

theorem spec_stack_length_le (segs : List (List Nat)) :
    ∀ st : List (List Nat), (spec_stack segs st).length ≤ st.length + segs.length := by
  induction segs with
  | nil => intro st; simp [spec_stack]
  | cons seg segs ih =>
    intro st
    unfold spec_stack
    split
    · have := ih st.dropLast
      simp only [List.length_dropLast, List.length_cons] at this ⊢
      omega
    · have := ih (st ++ [seg])
      simp only [List.length_append, List.length_cons, List.length_nil] at this ⊢
      omega

theorem safe_path_loop_eq_spec_stack (toks : List (List Nat)) :
    ∀ parts : List (List Nat),
      parts.length + (toks.filter (fun s => s ≠ [] ∧ s ≠ bytes ".")).length < 255 →
      safe_path_loop toks parts
        = spec_stack (toks.filter (fun s => s ≠ [] ∧ s ≠ bytes ".")) parts := by
  induction toks with
  | nil => intro parts _; simp [safe_path_loop, spec_stack]
  | cons tok toks ih =>
    intro parts hlen
    unfold safe_path_loop
    by_cases hskip : tok = bytes "" ∨ tok = bytes "."
    · have hf : ¬ (tok ≠ [] ∧ tok ≠ bytes ".") := by
        rcases hskip with h | h
        · rw [bytes_empty] at h; simp [h]
        · simp [h]
      have hfilter : (tok :: toks).filter (fun s => s ≠ [] ∧ s ≠ bytes ".")
          = toks.filter (fun s => s ≠ [] ∧ s ≠ bytes ".") := by
        simp [List.filter_cons, hf]
      rw [hfilter] at hlen ⊢
      have hlt : parts.length < 255 := by omega
      simp only [hlt, if_true, hskip]
      exact ih parts hlen
    · have hf : tok ≠ [] ∧ tok ≠ bytes "." := by
        simp only [not_or, bytes_empty] at hskip
        exact hskip
      have hfilter : (tok :: toks).filter (fun s => s ≠ [] ∧ s ≠ bytes ".")
          = tok :: toks.filter (fun s => s ≠ [] ∧ s ≠ bytes ".") := by
        simp [List.filter_cons, hf]
      rw [hfilter] at hlen ⊢
      simp only [List.length_cons] at hlen
      have hlt : parts.length < 255 := by omega
      simp only [hlt, if_true, hskip, if_false]
      unfold spec_stack
      by_cases hdd : tok = bytes ".."
      · simp only [hdd, if_true]
        have hdrop : (if parts.length > 0 then parts.dropLast else parts) = parts.dropLast := by
          split
          · rfl
          · have : parts = [] := List.length_eq_zero.1 (by omega)
            simp [this]
        rw [hdrop]
        apply ih
        simp only [List.length_dropLast]
        omega
      · simp only [hdd, if_false]
        apply ih
        simp only [List.length_append, List.length_cons, List.length_nil]
        omega

theorem join_parts_eq_intercalate (parts : List (List Nat)) :
    join_parts parts = List.intercalate (bytes "/") parts := by
  induction parts with
  | nil => simp [join_parts, List.intercalate]
  | cons p ps ih =>
    cases ps with
    | nil => simp [join_parts, List.intercalate]
    | cons q qs =>
      unfold join_parts
      rw [ih, bytes_slash]
      simp [List.intercalate, List.intersperse]



theorem strtok_tokens_filter (d : List Nat) :
    (strtok_tokens d).filter (fun s => s ≠ [] ∧ s ≠ bytes ".") = spec_segments d := by
  rw [strtok_tokens_eq_split, List.filter_filter]
  unfold spec_segments
  congr 1
  funext s
  by_cases h : s = [] <;> simp [h]

theorem safe_path_parts_eq_spec (d : List Nat) (hhead : d.head? = some 47)
    (hcap : (spec_segments d).length < 255) :
    safe_path_parts d = spec_stack (spec_segments d) [] := by
  unfold safe_path_parts
  simp only [hhead, ne_eq, not_true_eq_false, if_false]
  rw [safe_path_loop_eq_spec_stack, strtok_tokens_filter]
  rw [strtok_tokens_filter]
  simpa using hcap

theorem safe_path_tmp_eq_spec (d : List Nat) (hhead : d.head? = some 47)
    (hcap : (spec_segments d).length < 255) :
    safe_path_tmp d = spec_resolve d := by
  unfold safe_path_tmp spec_resolve
  simp only [safe_path_parts_eq_spec d hhead hcap]
  by_cases hst : spec_stack (spec_segments d) [] = []
  · simp only [hst, if_true, List.length_nil, join_parts]
    decide
  · have hl : ¬ (spec_stack (spec_segments d) []).length = 0 :=
      fun h => hst (List.length_eq_zero.1 h)
    simp only [hst, hl, if_false, List.append_nil, join_parts_eq_intercalate]

/-- C2 (amended). For a raw target of at most 1023 bytes whose decoded form has no NUL byte,
is empty or begins with `'/'`, has fewer than 255 segments other than empty and `.` ones, and
whose resolved path is shorter than 1023 bytes, `safe_path` returns 0 and stores the path
that the specification's split / stack / join steps give. -/
theorem safe_path_eq_spec_resolve (out inp : List Nat)
    (hlen : inp.length ≤ 1023)
    (hnul : 0 ∉ url_decode inp)
    (hroot : url_decode inp = [] ∨ (url_decode inp).head? = some 47)
    (hcap : (spec_segments (url_decode inp)).length < 255)
    (hbound : (spec_resolve (url_decode inp)).length < 1023) :
    safe_path out inp = CResult.returns (0, spec_resolve (url_decode inp)) := by
  have hdl := url_decode_length_le inp
  unfold safe_path
  simp only [cstr_of_no_nul _ hnul]
  have h1 : ¬ ((url_decode inp).length + 1 > 1024) := by omega
  simp only [h1, if_false]
  generalize url_decode inp = d at *
  by_cases hd : d = bytes "/" ∨ d.length = 0
  · simp only [hd, if_true]
    rcases hd with rfl | h0
    · decide
    · have : d = [] := List.length_eq_zero.1 h0
      subst this
      decide
  · simp only [hd, if_false]
    have hhead : d.head? = some 47 := by
      rcases hroot with h | h
      · exact absurd (Or.inr (by simp [h])) hd
      · exact h
    rw [safe_path_tmp_eq_spec d hhead hcap]
    have h2 : ¬ ((spec_resolve d).length + 1 > 1024) := by omega
    have h3 : ¬ ((spec_resolve d).length ≥ 1023) := by omega
    simp only [h2, h3, if_false]

theorem safe_path_eq_spec_resolve_witness :
    safe_path [] (bytes "/a/./b//../c%2fd")
      = CResult.returns (0, spec_resolve (url_decode (bytes "/a/./b//../c%2fd"))) ∧
    spec_resolve (url_decode (bytes "/a/./b//../c%2fd")) = bytes "./a/c/d" :=
  ⟨safe_path_eq_spec_resolve [] (bytes "/a/./b//../c%2fd") (by decide) (by decide)
    (by decide) (by decide) (by decide), by decide⟩

set_option maxRecDepth 100000 in
/-- C2 fails as stated: with 255 segments on the stack the loop stops, so a later `..` is not
applied; a first byte other than `'/'` is overwritten; a decoded NUL byte ends the target. -/
theorem safe_path_spec_resolve_counterexample :
    ((spec_resolve (url_decode ((List.replicate 255 (bytes "/a")).flatten ++ bytes "/.."))).length
        < 1023 ∧
      safe_path [] ((List.replicate 255 (bytes "/a")).flatten ++ bytes "/..")
        ≠ CResult.returns (0,
            spec_resolve (url_decode ((List.replicate 255 (bytes "/a")).flatten ++ bytes "/..")))) ∧
    ((spec_resolve (url_decode (bytes "foo/bar"))).length < 1023 ∧
      safe_path [] (bytes "foo/bar")
        ≠ CResult.returns (0, spec_resolve (url_decode (bytes "foo/bar")))) ∧
    ((spec_resolve (url_decode (bytes "/a%00b"))).length < 1023 ∧
      safe_path [] (bytes "/a%00b")
        ≠ CResult.returns (0, spec_resolve (url_decode (bytes "/a%00b")))) := by
  decide!



/-! ### The request line -/

theorem tokens_cons_delim (d : Nat → Bool) (c : Nat) (s : List Nat) (hc : d c = true) :
    (split_by d (c :: s)).filter (fun x => x ≠ [])
      = (split_by d s).filter (fun x => x ≠ []) := by
  rw [split_by]; simp [hc]

theorem tokens_dropWhile (d : Nat → Bool) (s : List Nat) :
    (split_by d (s.dropWhile d)).filter (fun x => x ≠ [])
      = (split_by d s).filter (fun x => x ≠ []) := by
  induction s with
  | nil => rfl
  | cons c cs ih =>
    by_cases hc : d c = true
    · rw [List.dropWhile_cons_of_pos hc, ih, tokens_cons_delim d c cs hc]
    · rw [List.dropWhile_cons_of_neg hc]

theorem tokens_clean_append (d : Nat → Bool) (p r : List Nat) (hne : p ≠ [])
    (hp : ∀ c ∈ p, d c = false) (hr : r = [] ∨ ∃ c r', r = c :: r' ∧ d c = true) :
    (split_by d (p ++ r)).filter (fun x => x ≠ [])
      = p :: (split_by d r).filter (fun x => x ≠ []) := by
  have key : ∃ t, split_by d r = [] :: t := by
    rcases hr with rfl | ⟨c, r', rfl, hc⟩
    · exact ⟨[], by simp [split_by]⟩
    · exact ⟨split_by d r', by rw [split_by]; simp [hc]⟩
  obtain ⟨t, ht⟩ := key
  rw [split_by_append_clean d p r [] t hp ht, ht]
  simp [hne]

theorem dropWhile_head (p : Nat → Bool) (s : List Nat) :
    s.dropWhile p = [] ∨ ∃ c r, s.dropWhile p = c :: r ∧ p c = false := by
  induction s with
  | nil => left; rfl
  | cons c cs ih =>
    by_cases hc : p c = true
    · rw [List.dropWhile_cons_of_pos hc]; exact ih
    · rw [List.dropWhile_cons_of_neg hc]
      exact Or.inr ⟨c, cs, rfl, by simpa using hc⟩

/-- What one `%Ns` conversion does to the token sequence: it takes the first token, cut at
`w` bytes, and leaves what was cut off as the next token. -/
theorem scan_s_tokens (w : Nat) (hw : 0 < w) (s : List Nat) :
    ((split_by isspace s).filter (fun x => x ≠ []) = [] ∧ scan_s w s = none) ∨
    ∃ t ts rest, (split_by isspace s).filter (fun x => x ≠ []) = t :: ts ∧
      scan_s w s = some (t.take w, rest) ∧
      (split_by isspace rest).filter (fun x => x ≠ [])
        = if t.length ≤ w then ts else t.drop w :: ts := by
  rw [← tokens_dropWhile isspace s]
  unfold scan_s
  simp only
  rcases dropWhile_head isspace s with h0 | ⟨c, r, h1, hc⟩
  · left
    rw [h0]
    exact ⟨by decide, by simp⟩
  · right
    rw [h1]
    generalize hs1 : c :: r = s1
    have hsplit : s1.takeWhile (fun c => !isspace c) ++ s1.dropWhile (fun c => !isspace c) = s1 :=
      List.takeWhile_append_dropWhile _ _
    have htw_ne : s1.takeWhile (fun c => !isspace c) ≠ [] := by
      rw [← hs1, List.takeWhile_cons_of_pos (by simp [hc])]
      simp
    have htw_clean : ∀ x ∈ s1.takeWhile (fun c => !isspace c), isspace x = false := by
      intro x hx
      have := List.mem_takeWhile_imp hx
      simpa using this
    have hdw : s1.dropWhile (fun c => !isspace c) = [] ∨
        ∃ c r', s1.dropWhile (fun c => !isspace c) = c :: r' ∧ isspace c = true := by
      rcases dropWhile_head (fun c => !isspace c) s1 with h | ⟨c', r', h, hc'⟩
      · exact Or.inl h
      · exact Or.inr ⟨c', r', h, by simpa using hc'⟩
    generalize s1.takeWhile (fun c => !isspace c) = tw at *
    generalize s1.dropWhile (fun c => !isspace c) = dw at *
    subst hsplit
    have hfield : tw.take w ≠ [] := by
      cases tw with
      | nil => exact absurd rfl htw_ne
      | cons a as =>
        cases w with
        | zero => omega
        | succ n => simp
    refine ⟨tw, (split_by isspace dw).filter (fun x => x ≠ []), (tw ++ dw).drop (tw.take w).length,
      tokens_clean_append isspace tw dw htw_ne htw_clean hdw, by simp [hfield], ?_⟩
    by_cases hle : tw.length ≤ w
    · simp only [hle, if_true]
      rw [List.take_of_length_le hle, List.drop_left]
    · simp only [hle, if_false]
      have hlt : w < tw.length := by omega
      have hl : (tw.take w).length = w := by simp; omega
      rw [hl, List.drop_append_of_le_length (by omega)]
      refine tokens_clean_append isspace (tw.drop w) dw ?_ ?_ hdw
      · intro h
        have := congrArg List.length h
        simp at this
        omega
      · intro x hx
        exact htw_clean x (List.mem_of_mem_drop hx)



theorem scan_s_none_iff (w : Nat) (hw : 0 < w) (s : List Nat) :
    scan_s w s = none ↔ (split_by isspace s).filter (fun x => x ≠ []) = [] := by
  rcases scan_s_tokens w hw s with ⟨h1, h2⟩ | ⟨t, ts, rest, h1, h2, _⟩
  · exact ⟨fun _ => h1, fun _ => h2⟩
  · rw [h1, h2]
    exact ⟨fun h => (by cases h), fun h => (by cases h)⟩

theorem scan_s_some (w : Nat) (hw : 0 < w) (s f rest : List Nat)
    (h : scan_s w s = some (f, rest)) :
    ∃ t ts, (split_by isspace s).filter (fun x => x ≠ []) = t :: ts ∧ f = t.take w ∧
      (split_by isspace rest).filter (fun x => x ≠ [])
        = if t.length ≤ w then ts else t.drop w :: ts := by
  rcases scan_s_tokens w hw s with ⟨_, h2⟩ | ⟨t, ts, rest', h1, h2, h3⟩
  · rw [h2] at h; cases h
  · rw [h2] at h
    simp only [Option.some.injEq, Prod.mk.injEq] at h
    obtain ⟨rfl, rfl⟩ := h
    exact ⟨t, ts, h1, rfl, h3⟩

theorem scan_s_of_tokens (w : Nat) (hw : 0 < w) (s : List Nat) (n : Nat)
    (h : n + 1 ≤ ((split_by isspace s).filter (fun x => x ≠ [])).length) :
    ∃ f rest, scan_s w s = some (f, rest) ∧
      n ≤ ((split_by isspace rest).filter (fun x => x ≠ [])).length := by
  rcases scan_s_tokens w hw s with ⟨h1, _⟩ | ⟨t, ts, rest, h1, h2, h3⟩
  · rw [h1] at h
    simp at h
  · refine ⟨t.take w, rest, h2, ?_⟩
    rw [h1] at h
    simp only [List.length_cons] at h
    rw [h3]
    split
    · omega
    · simp only [List.length_cons]; omega

theorem sscanf_request_of_three_tokens (buf : List Nat) (h : 3 ≤ (ws_tokens buf).length) :
    (sscanf_request buf).isSome = true := by
  unfold ws_tokens at h
  obtain ⟨f1, r1, e1, hl1⟩ := scan_s_of_tokens 15 (by decide) (cstr buf) 2 h
  obtain ⟨f2, r2, e2, hl2⟩ := scan_s_of_tokens 1023 (by decide) r1 1 hl1
  obtain ⟨f3, r3, e3, _⟩ := scan_s_of_tokens 31 (by decide) r2 0 hl2
  simp only [sscanf_request, e1, e2, e3]
  rfl

theorem sscanf_request_of_few_tokens (buf : List Nat)
    (h1 : ∀ t ∈ (ws_tokens buf).head?, t.length ≤ 15)
    (h2 : ∀ u ∈ (ws_tokens buf).tail.head?, u.length ≤ 1023)
    (h : (ws_tokens buf).length < 3) : sscanf_request buf = none := by
  unfold ws_tokens at h h1 h2
  rcases scan_s_tokens 15 (by decide) (cstr buf) with ⟨_, e1⟩ | ⟨t, ts, r1, ht, e1, hr1⟩
  · simp only [sscanf_request, e1]
  · have ht15 := h1 t (by rw [ht]; rfl)
    simp only [ht15, if_true] at hr1
    rcases scan_s_tokens 1023 (by decide) r1 with ⟨_, e2⟩ | ⟨u, us, r2, hu, e2, hr2⟩
    · simp only [sscanf_request, e1, e2]
    · rw [hr1] at hu
      subst hu
      have hu1023 := h2 u (by rw [ht]; rfl)
      simp only [hu1023, if_true] at hr2
      rw [ht] at h
      simp only [List.length_cons] at h
      have hus : us = [] := List.length_eq_zero.1 (by omega)
      subst hus
      have e3 := (scan_s_none_iff 31 (by decide) r2).2 hr2
      simp only [sscanf_request, e1, e2, e3]

/-- C3 (amended). The `sscanf` step accepts every buffer that has three or more
white-space-delimited tokens (what follows the third field is not looked at); it rejects
every buffer with fewer than three tokens whose first token has at most 15 bytes and whose
second has at most 1023; and a rejected buffer is answered with 400 Bad Request. -/
theorem sscanf_request_token_count (fs : FileSystem) (buf : List Nat) :
    (3 ≤ (ws_tokens buf).length → (sscanf_request buf).isSome = true) ∧
    ((∀ t ∈ (ws_tokens buf).head?, t.length ≤ 15) →
      (∀ u ∈ (ws_tokens buf).tail.head?, u.length ≤ 1023) →
      (ws_tokens buf).length < 3 → sscanf_request buf = none) ∧
    (sscanf_request buf = none → buf ≠ [] →
      handle_connection fs buf = Outcome.sent resp_400 []) := by
  refine ⟨sscanf_request_of_three_tokens buf, sscanf_request_of_few_tokens buf, ?_⟩
  intro hnone hne
  unfold handle_connection
  have hlen : ¬ (buf.length ≤ 0) := by
    cases buf with
    | nil => exact absurd rfl hne
    | cons a as => simp
  simp only [hlen, if_false, hnone]

theorem sscanf_request_token_count_witness :
    (sscanf_request (bytes "GET / HTTP/1.1\r\nHost: a\r\n\r\n")).isSome = true ∧
    sscanf_request (bytes "GET /") = none ∧
    handle_connection (fun _ => none) (bytes "GET /") = Outcome.sent resp_400 [] :=
  ⟨(sscanf_request_token_count (fun _ => none) (bytes "GET / HTTP/1.1\r\nHost: a\r\n\r\n")).1
      (by decide),
    (sscanf_request_token_count (fun _ => none) (bytes "GET /")).2.1
      (by decide) (by decide) (by decide),
    (sscanf_request_token_count (fun _ => none) (bytes "GET /")).2.2 (by decide) (by decide)⟩

/-- C3 fails as stated: a buffer of four tokens is accepted, and so is a buffer of two
tokens whose first token is longer than 15 bytes. -/
theorem sscanf_request_exactly_three_counterexample :
    ((ws_tokens (bytes "GET / HTTP/1.1 extra")).length = 4 ∧
      sscanf_request (bytes "GET / HTTP/1.1 extra")
        = some (bytes "GET", bytes "/", bytes "HTTP/1.1")) ∧
    ((ws_tokens (bytes "AAAAAAAAAAAAAAAAA /")).length = 2 ∧
      sscanf_request (bytes "AAAAAAAAAAAAAAAAA /")
        = some (bytes "AAAAAAAAAAAAAAA", bytes "AA", bytes "/")) := by
  decide



/-! ### get_mime_type -/

theorem strrchr_none (c : Nat) (s : List Nat) (h : c ∉ s) : strrchr s c = none := by
  induction s with
  | nil => rfl
  | cons x xs ih =>
    have hx : x ≠ c := fun e => h (e ▸ List.mem_cons_self _ _)
    rw [strrchr, ih (fun m => h (List.mem_cons_of_mem _ m))]
    simp [hx]

theorem strrchr_append (c : Nat) (pre ext : List Nat) (h : c ∉ ext) :
    strrchr (pre ++ c :: ext) c = some (c :: ext) := by
  induction pre with
  | nil => simp [strrchr, strrchr_none c ext h]
  | cons x xs ih => rw [List.cons_append, strrchr, ih]

theorem mime_step (ext k v a : List Nat) (rest : List (List Nat × List Nat))
    (h : ¬ ext = k → a = (rest.lookup ext).getD (bytes "application/octet-stream")) :
    (if ext = k then v else a)
      = (((k, v) :: rest).lookup ext).getD (bytes "application/octet-stream") := by
  by_cases e : ext = k
  · subst e
    simp [List.lookup]
  · have hb : (ext == k) = false := by simpa using e
    simp only [e, if_false, List.lookup, hb]
    exact h e

theorem get_mime_type_lookup (ext : List Nat) :
    (if ext = bytes "html" then bytes "text/html; charset=utf-8"
    else if ext = bytes "htm" then bytes "text/html; charset=utf-8"
    else if ext = bytes "css" then bytes "text/css"
    else if ext = bytes "js" then bytes "application/javascript"
    else if ext = bytes "png" then bytes "image/png"
    else if ext = bytes "jpg" then bytes "image/jpeg"
    else if ext = bytes "jpeg" then bytes "image/jpeg"
    else if ext = bytes "gif" then bytes "image/gif"
    else if ext = bytes "txt" then bytes "text/plain; charset=utf-8"
    else if ext = bytes "json" then bytes "application/json"
    else if ext = bytes "svg" then bytes "image/svg+xml"
    else bytes "application/octet-stream") = spec_mime ext := by
  unfold spec_mime mime_table
  iterate 11 (apply mime_step; intro _)
  rfl

theorem get_mime_type_of_dot (pre ext : List Nat) (hext : 46 ∉ ext) :
    get_mime_type (pre ++ 46 :: ext) = spec_mime ext := by
  unfold get_mime_type
  rw [strrchr_append 46 pre ext hext]
  exact get_mime_type_lookup ext

theorem spec_mime_unknown (ext : List Nat) (h : ext ∉ mime_table.map Prod.fst) :
    spec_mime ext = bytes "application/octet-stream" := by
  unfold spec_mime
  have : mime_table.lookup ext = none := by
    rw [List.lookup_eq_none_iff]
    intro p hp
    have hne : ext ≠ p.1 := fun e => h (e ▸ List.mem_map_of_mem Prod.fst hp)
    simpa using hne
  rw [this]
  rfl

/-- C5. `get_mime_type` is a total function.  A path without `'.'` gives
`application/octet-stream`; otherwise the bytes after the last `'.'` are looked up, exactly
and with case kept, in the table of eleven extensions, and any other extension (also the
empty one of a path ending in `'.'`) gives `application/octet-stream`. -/
theorem get_mime_type_table (pre ext : List Nat) (hext : 46 ∉ ext) :
    get_mime_type (pre ++ 46 :: ext) = spec_mime ext ∧
    (ext ∉ mime_table.map Prod.fst →
      get_mime_type (pre ++ 46 :: ext) = bytes "application/octet-stream") ∧
    get_mime_type ext = bytes "application/octet-stream" ∧
    mime_table.map Prod.fst
      = [bytes "html", bytes "htm", bytes "css", bytes "js", bytes "png", bytes "jpg",
          bytes "jpeg", bytes "gif", bytes "txt", bytes "json", bytes "svg"] ∧
    mime_table.map (fun p => spec_mime p.1)
      = [bytes "text/html; charset=utf-8", bytes "text/html; charset=utf-8", bytes "text/css",
          bytes "application/javascript", bytes "image/png", bytes "image/jpeg",
          bytes "image/jpeg", bytes "image/gif", bytes "text/plain; charset=utf-8",
          bytes "application/json", bytes "image/svg+xml"] := by
  refine ⟨get_mime_type_of_dot pre ext hext, ?_, ?_, by decide, by decide⟩
  · intro h
    rw [get_mime_type_of_dot pre ext hext, spec_mime_unknown ext h]
  · unfold get_mime_type
    rw [strrchr_none 46 ext hext]

theorem get_mime_type_table_witness :
    get_mime_type (bytes "./site/index" ++ 46 :: bytes "html") = spec_mime (bytes "html") ∧
    spec_mime (bytes "html") = bytes "text/html; charset=utf-8" ∧
    get_mime_type (bytes "./INDEX" ++ 46 :: bytes "HTML") = bytes "application/octet-stream" ∧
    get_mime_type (bytes "./archive" ++ 46 :: bytes "") = bytes "application/octet-stream" ∧
    get_mime_type (bytes "README") = bytes "application/octet-stream" :=
  ⟨(get_mime_type_table (bytes "./site/index") (bytes "html") (by decide)).1,
    by decide,
    (get_mime_type_table (bytes "./INDEX") (bytes "HTML") (by decide)).2.1 (by decide),
    (get_mime_type_table (bytes "./archive") (bytes "") (by decide)).2.1 (by decide),
    (get_mime_type_table [] (bytes "README") (by decide)).2.2.1⟩




/-! ### url_decode -/

theorem hex_nibble_eq_hex_value (c : Nat) (h : isxdigit c = true) :
    hex_nibble c = hex_value c := by
  unfold isxdigit at h
  simp only [Bool.or_eq_true, Bool.and_eq_true, decide_eq_true_eq] at h
  unfold hex_nibble hex_value
  rcases h with (⟨h1, h2⟩ | ⟨h1, h2⟩) | ⟨h1, h2⟩
  · have a1 : ¬ c ≥ 97 := by omega
    have a2 : ¬ c ≥ 65 := by omega
    simp [a1, a2, h1, h2]
  · have a1 : ¬ c ≥ 97 := by omega
    have a2 : c ≥ 65 := by omega
    have a3 : ¬ (48 ≤ c ∧ c ≤ 57) := by omega
    have a4 : ¬ (97 ≤ c ∧ c ≤ 102) := by omega
    simp [a1, a2, a3, a4, h1, h2]
  · have a1 : c ≥ 97 := by omega
    have a3 : ¬ (48 ≤ c ∧ c ≤ 57) := by omega
    simp [a1, a3, h1, h2]

theorem isxdigit_of_HexDigit (c : Nat) (h : HexDigit c) : isxdigit c = true ∧ c ≠ 0 := by
  unfold HexDigit at h
  unfold isxdigit
  simp only [Bool.or_eq_true, Bool.and_eq_true, decide_eq_true_eq]
  omega

theorem hex_value_lt (c : Nat) : hex_value c < 16 := by
  unfold hex_value
  split
  · omega
  · split
    · omega
    · split <;> omega

/-- Decoding a string does not depend on what follows it, when what follows begins with a
byte that is not a hex digit. -/
theorem url_decode_append (pre : List Nat) :
    0 ∉ pre → ∀ s : List Nat, (s = [] ∨ ∃ c r, s = c :: r ∧ isxdigit c = false) →
      url_decode (pre ++ s) = url_decode pre ++ url_decode s := by
  induction pre using url_decode.induct with
  | case1 => intro _ s _; simp [url_decode_nil]
  | case2 rest => intro h; exact absurd (List.mem_cons_self _ _) h
  | case3 a b rest2 hx _ ih =>
    intro h s hs
    have h' : 0 ∉ rest2 := fun m =>
      h (List.mem_cons_of_mem _ (List.mem_cons_of_mem _ (List.mem_cons_of_mem _ m)))
    simp only [List.cons_append]
    rw [url_decode_hex a b _ hx, url_decode_hex a b _ hx, ih h' s hs]
    rfl
  | case4 a b rest2 hx _ ih =>
    intro h s hs
    have h' : 0 ∉ a :: b :: rest2 := fun m => h (List.mem_cons_of_mem _ m)
    have hp : ∀ (t : List Nat) (a' b' : Nat) (r : List Nat), a :: b :: t = a' :: b' :: r →
        ¬ (a' ≠ 0 ∧ b' ≠ 0 ∧ isxdigit a' = true ∧ isxdigit b' = true) := by
      intro t a' b' r e
      simp only [List.cons.injEq] at e
      obtain ⟨rfl, rfl, _⟩ := e
      exact hx
    have e1 : url_decode (37 :: a :: b :: rest2 ++ s)
        = 37 :: url_decode (a :: b :: rest2 ++ s) := by
      simp only [List.cons_append]
      exact url_decode_percent _ (hp _)
    rw [e1, url_decode_percent _ (hp rest2), ih h' s hs]
    rfl
  | case5 a _ ih =>
    intro h s hs
    have h' : 0 ∉ [a] := fun m => h (List.mem_cons_of_mem _ m)
    have e2 : url_decode [37, a] = 37 :: url_decode [a] :=
      url_decode_percent _ (fun a' b' r e => by simp at e)
    have e1 : url_decode ([37, a] ++ s) = 37 :: url_decode ([a] ++ s) := by
      simp only [List.cons_append, List.nil_append]
      apply url_decode_percent
      intro a' b' r e
      rcases hs with rfl | ⟨c, r', rfl, hc⟩
      · simp at e
      · simp only [List.cons.injEq] at e
        obtain ⟨_, rfl, _⟩ := e
        simp [hc]
    rw [e1, e2, ih h' s hs]
    rfl
  | case6 =>
    intro _ s hs
    have e2 : url_decode [37] = [37] := by
      rw [url_decode_percent _ (fun a' b' r e => by simp at e), url_decode_nil]
    have e1 : url_decode ([37] ++ s) = 37 :: url_decode s := by
      simp only [List.cons_append, List.nil_append]
      apply url_decode_percent
      intro a' b' r e
      rcases hs with rfl | ⟨c, r', rfl, hc⟩
      · simp at e
      · simp only [List.cons.injEq] at e
        obtain ⟨rfl, _⟩ := e
        simp [hc]
    rw [e1, e2]
    rfl
  | case7 rest _ _ ih =>
    intro h s hs
    have h' : 0 ∉ rest := fun m => h (List.mem_cons_of_mem _ m)
    simp only [List.cons_append]
    rw [url_decode_plus, url_decode_plus, ih h' s hs]
    rfl
  | case8 c rest h0 h37 h43 ih =>
    intro h s hs
    have h' : 0 ∉ rest := fun m => h (List.mem_cons_of_mem _ m)
    simp only [List.cons_append]
    rw [url_decode_other c _ h0 h37 h43, url_decode_other c _ h0 h37 h43, ih h' s hs]
    rfl

/-- C6. A triplet `%XY` of two hex digits decodes to the single byte `16 * val X + val Y`,
with the same value for a letter in either case, and the bytes before it (a C string, so
without NUL) and after it are decoded on their own. -/
theorem url_decode_triplet (pre post : List Nat) (X Y : Nat) (hpre : 0 ∉ pre)
    (hX : HexDigit X) (hY : HexDigit Y) :
    url_decode (pre ++ 37 :: X :: Y :: post)
        = url_decode pre ++ (16 * hex_value X + hex_value Y) :: url_decode post ∧
      (∀ c, 65 ≤ c → c ≤ 70 → hex_value (c + 32) = hex_value c) := by
  constructor
  · have hx := isxdigit_of_HexDigit X hX
    have hy := isxdigit_of_HexDigit Y hY
    rw [url_decode_append pre hpre _ (Or.inr ⟨37, _, rfl, by decide⟩),
      url_decode_hex X Y post ⟨hx.2, hy.2, hx.1, hy.1⟩,
      hex_nibble_eq_hex_value X hx.1, hex_nibble_eq_hex_value Y hy.1]
    have := hex_value_lt X
    have := hex_value_lt Y
    rw [Nat.mod_eq_of_lt (by omega)]
  · intro c h1 h2
    unfold hex_value
    have a1 : ¬ (48 ≤ c + 32 ∧ c + 32 ≤ 57) := by omega
    have a2 : 97 ≤ c + 32 ∧ c + 32 ≤ 102 := by omega
    have a3 : ¬ (48 ≤ c ∧ c ≤ 57) := by omega
    have a4 : ¬ (97 ≤ c ∧ c ≤ 102) := by omega
    have a5 : 65 ≤ c ∧ c ≤ 70 := ⟨h1, h2⟩
    rw [if_neg a1, if_pos a2, if_neg a3, if_neg a4, if_pos a5]
    omega

theorem url_decode_triplet_witness :
    url_decode (bytes "/a" ++ 37 :: 50 :: 102 :: bytes "b")
        = url_decode (bytes "/a") ++ (16 * hex_value 50 + hex_value 102) :: url_decode (bytes "b") ∧
    url_decode (bytes "%2f") = bytes "/" ∧ url_decode (bytes "%2F") = bytes "/" ∧
    url_decode (bytes "%41") = bytes "A" ∧ url_decode (bytes "%fF") = [255] :=
  ⟨(url_decode_triplet (bytes "/a") (bytes "b") 50 102 (by decide) (by decide) (by decide)).1,
    by decide, by decide, by decide, by decide⟩

/-- C7 (amended). `url_decode` turns every `'+'` of its input into a space, and the bytes
before it (a C string, so without NUL) and after it are decoded on their own. -/
theorem url_decode_plus_is_space (pre post : List Nat) (hpre : 0 ∉ pre) :
    url_decode (pre ++ 43 :: post) = url_decode pre ++ 32 :: url_decode post := by
  rw [url_decode_append pre hpre _ (Or.inr ⟨43, _, rfl, by decide⟩), url_decode_plus]

theorem url_decode_plus_is_space_witness :
    url_decode (bytes "/a" ++ 43 :: bytes "b")
        = url_decode (bytes "/a") ++ 32 :: url_decode (bytes "b") ∧
    safe_path [] (bytes "/a+b") = CResult.returns (0, bytes "./a b") :=
  ⟨url_decode_plus_is_space (bytes "/a") (bytes "b") (by decide), by decide⟩

/-- C7 fails as stated: the `'+'` of `/a+b` is decoded to a space, no `'+'` is left in the
output, and the target resolves to `./a b`, not to `./a+b`. -/
theorem url_decode_plus_counterexample :
    url_decode (bytes "/a+b") = bytes "/a b" ∧ 43 ∉ url_decode (bytes "/a+b") ∧
    safe_path [] (bytes "/a+b") ≠ CResult.returns (0, bytes "./a+b") := by
  decide

/-! ### The length check of safe_path -/

/-- What `safe_path` does for a target that fits `dec`, by the length of the assembled path:
1024 bytes do not fit `tmp`, 1023 bytes are refused, anything shorter is stored. -/
theorem safe_path_by_length (out inp : List Nat) (hlen : inp.length ≤ 1023) :
    safe_path out inp =
      if (safe_path_assembled inp).length ≥ 1024 then CResult.undefined
      else if (safe_path_assembled inp).length ≥ 1023 then CResult.returns (-1, out)
      else CResult.returns (0, safe_path_assembled inp) := by
  have hdl := url_decode_length_le inp
  have h1 : ¬ ((url_decode inp).length + 1 > 1024) := by omega
  unfold safe_path safe_path_assembled
  simp only [h1, if_false]
  by_cases hd : cstr (url_decode inp) = bytes "/" ∨ (cstr (url_decode inp)).length = 0
  · simp only [hd, if_true]
    have e : (bytes "./index.html").length = 12 := by decide
    simp [e]
  · simp only [hd, if_false]
    by_cases h2 : (safe_path_tmp (cstr (url_decode inp))).length ≥ 1024
    · have : (safe_path_tmp (cstr (url_decode inp))).length + 1 > 1024 := by omega
      simp only [this, h2, if_true]
    · have : ¬ ((safe_path_tmp (cstr (url_decode inp))).length + 1 > 1024) := by omega
      simp only [this, h2, if_false]

set_option maxRecDepth 100000 in
/-- C8, at the failing input. For the 1023-byte target `/aaa...a` the assembled path has
1024 bytes: `strcat` has written 1025 bytes into `tmp[1024]` before the check of line 94
runs, so the call has no defined result (it does not return -1). -/
theorem safe_path_tmp_overrun :
    (47 :: List.replicate 1022 97).length = 1023 ∧
    (safe_path_assembled (47 :: List.replicate 1022 97)).length = 1024 ∧
    safe_path [] (47 :: List.replicate 1022 97) = CResult.undefined ∧
    safe_path [] (47 :: List.replicate 1021 97) = CResult.returns (-1, []) := by
  decide!

/-! ### handle_connection -/

theorem sscanf_request_nil : sscanf_request [] = none := by decide

theorem status_header_200 (mime : List Nat) (n : Nat) :
    ((header_200 mime n).drop 9).take 3 = bytes "200" := by
  unfold header_200 snprintf
  have e : bytes "HTTP/1.1 200 OK\r\n"
      = [72, 84, 84, 80, 47, 49, 46, 49, 32, 50, 48, 48, 32, 79, 75, 13, 10] := by decide
  rw [e]
  simp only [List.append_assoc, List.cons_append, List.nil_append]
  rfl

/-- The order in which `handle_connection` decides the status, for every call whose
behaviour is defined. -/
theorem handle_connection_status_order (fs : FileSystem) (buf : List Nat) (hbuf : buf ≠ [])
    (hfstat : ∀ p f, fs p = some f → f.fstat ≠ none)
    (hdef : handle_connection fs buf ≠ Outcome.undefined) :
    status (handle_connection fs buf) = some
      (match sscanf_request buf with
        | none => bytes "400"
        | some (method, path, _) =>
          if method ≠ bytes "GET" then bytes "405"
          else
            match safe_path [] (cstr (path.take 1023)) with
            | CResult.undefined => []
            | CResult.returns (ret, file_path) =>
              if ret < 0 then bytes "400"
              else
                match fs file_path with
                | none => bytes "404"
                | some file =>
                  if file.fstat.map Stat.is_reg = some false then bytes "403"
                  else bytes "200") := by
  have hlen : ¬ (buf.length ≤ 0) := by
    cases buf with
    | nil => exact absurd rfl hbuf
    | cons a as => simp
  unfold handle_connection at hdef ⊢
  simp only [hlen, if_false] at hdef ⊢
  cases e1 : sscanf_request buf with
  | none => simp only [e1]; decide
  | some mpv =>
    obtain ⟨method, path, version⟩ := mpv
    simp only [e1] at hdef ⊢
    by_cases hm : method ≠ bytes "GET"
    · simp only [if_pos hm]; decide
    · simp only [if_neg hm] at hdef ⊢
      cases e2 : safe_path [] (cstr (path.take 1023)) with
      | undefined => simp only [e2] at hdef; exact absurd rfl hdef
      | returns rp =>
        obtain ⟨ret, file_path⟩ := rp
        simp only [e2] at hdef ⊢
        by_cases hr : ret < 0
        · simp only [if_pos hr]; decide
        · simp only [if_neg hr]
          cases e3 : fs file_path with
          | none => simp only [e3]; decide
          | some file =>
            have hf := hfstat _ _ e3
            cases e4 : file.fstat with
            | none => exact absurd e4 hf
            | some st =>
              simp only [e3, e4, Option.map_some']
              cases hreg : st.is_reg with
              | false =>
                have h1 : (false = false) := rfl
                have h2 : (some false = some false) := rfl
                simp only [if_pos h1, if_pos h2, if_true]
                decide
              | true =>
                have h1 : ¬ (true = false) := by decide
                have h2 : ¬ (some true = some false) := by decide
                simp only [if_neg h1, if_neg h2, status, status_header_200]

set_option maxRecDepth 20000 in
/-- The two witnesses of the status order: a traversal attempt stays under the root and is
not found there (404), and a directory is refused (403). -/
theorem handle_connection_scenarios :
    status (handle_connection scenario_fs (bytes "GET /../../etc/passwd HTTP/1.1"))
      = some (bytes "404") ∧
    status (handle_connection scenario_fs (bytes "GET /style.css HTTP/1.1"))
      = some (bytes "403") ∧
    status (handle_connection scenario_fs (bytes "GET /app.js HTTP/1.1"))
      = some (bytes "200") := by
  decide

theorem handle_connection_undefined (fs : FileSystem) (buf path version : List Nat)
    (hparse : sscanf_request buf = some (bytes "GET", path, version))
    (hsp : safe_path [] (cstr (path.take 1023)) = CResult.undefined) :
    handle_connection fs buf = Outcome.undefined := by
  have hlen : ¬ (buf.length ≤ 0) := by
    cases buf with
    | nil => rw [sscanf_request_nil] at hparse; cases hparse
    | cons a as => simp
  unfold handle_connection
  simp only [hlen, if_false, hparse, hsp, ne_eq, not_true_eq_false]

set_option maxRecDepth 100000 in
/-- C4, at the failing input. A GET request whose target is the 1023-byte `/aaa...a` gets
past the parser and the method check and then overruns `tmp` inside `safe_path`: no status
is determined, whatever the filesystem holds. -/
theorem handle_connection_tmp_overrun (fs : FileSystem) :
    handle_connection fs (bytes "GET /" ++ List.replicate 1022 97 ++ bytes " HTTP/1.1")
      = Outcome.undefined :=
  handle_connection_undefined fs _ (47 :: List.replicate 1022 97) (bytes "HTTP/1.1")
    (by decide!) (by decide!)

/-- C9. A buffer that parses into three fields whose first is not exactly `GET` is answered
with the 405 response and nothing else, whatever the target and the filesystem are. -/
theorem handle_connection_405 (fs : FileSystem) (buf method path version : List Nat)
    (hparse : sscanf_request buf = some (method, path, version))
    (hmethod : method ≠ bytes "GET") :
    handle_connection fs buf
      = Outcome.sent
          (bytes "HTTP/1.1 405 Method Not Allowed\r\nAllow: GET\r\nConnection: close\r\nContent-Length: 0\r\n\r\n")
          [] := by
  have hlen : ¬ (buf.length ≤ 0) := by
    cases buf with
    | nil => rw [sscanf_request_nil] at hparse; cases hparse
    | cons a as => simp
  unfold handle_connection
  simp only [hlen, if_false, hparse, hmethod, ne_eq, not_false_eq_true, if_true]
  rfl

set_option maxRecDepth 100000 in
theorem handle_connection_405_witness :
    handle_connection (fun _ => none) (bytes "POST / HTTP/1.1")
      = Outcome.sent
          (bytes "HTTP/1.1 405 Method Not Allowed\r\nAllow: GET\r\nConnection: close\r\nContent-Length: 0\r\n\r\n")
          [] ∧
    handle_connection (fun _ => some ⟨some ⟨true, 3⟩, bytes "abc"⟩) (bytes "get /x HTTP/1.1")
      = Outcome.sent
          (bytes "HTTP/1.1 405 Method Not Allowed\r\nAllow: GET\r\nConnection: close\r\nContent-Length: 0\r\n\r\n")
          [] ∧
    handle_connection (fun _ => none)
        (bytes "PUT /" ++ List.replicate 1021 97 ++ bytes " HTTP/1.1")
      = Outcome.sent
          (bytes "HTTP/1.1 405 Method Not Allowed\r\nAllow: GET\r\nConnection: close\r\nContent-Length: 0\r\n\r\n")
          [] :=
  ⟨handle_connection_405 _ (bytes "POST / HTTP/1.1") (bytes "POST") (bytes "/") (bytes "HTTP/1.1")
      (by decide) (by decide),
    handle_connection_405 _ (bytes "get /x HTTP/1.1") (bytes "get") (bytes "/x")
      (bytes "HTTP/1.1") (by decide) (by decide),
    handle_connection_405 _ (bytes "PUT /" ++ List.replicate 1021 97 ++ bytes " HTTP/1.1")
      (bytes "PUT") (47 :: List.replicate 1021 97) (bytes "HTTP/1.1") (by decide!) (by decide)⟩



/-! ### The headers of the responses -/

theorem lookup_getD_length (ext : List Nat) (table : List (List Nat × List Nat))
    (h : ∀ p ∈ table, p.2.length ≤ 25) :
    ((table.lookup ext).getD (bytes "application/octet-stream")).length ≤ 25 := by
  induction table with
  | nil =>
    show (bytes "application/octet-stream").length ≤ 25
    decide
  | cons p ps ih =>
    obtain ⟨k, v⟩ := p
    have hv : v.length ≤ 25 := h (k, v) (List.mem_cons_self _ _)
    have ih' := ih (fun q m => h q (List.mem_cons_of_mem _ m))
    simp only [List.lookup]
    cases ext == k with
    | true => exact hv
    | false => exact ih'

theorem get_mime_type_length (path : List Nat) : (get_mime_type path).length ≤ 25 := by
  have e : get_mime_type path =
      match strrchr path 46 with
      | none => bytes "application/octet-stream"
      | some dot => spec_mime dot.tail := by
    unfold get_mime_type
    split
    · rfl
    · exact get_mime_type_lookup _
  rw [e]
  split
  · decide
  · exact lookup_getD_length _ mime_table (by decide)

theorem decimal_length (n : Nat) (h : n < 2 ^ 63) : (decimal n).length ≤ 19 := by
  unfold decimal Nat.toDigits
  rw [List.length_map]
  exact Nat.toDigitsCore_length 10 (by decide) (n + 1) n 19
    (lt_of_lt_of_le h (by norm_num)) (by decide)

/-- The header block of a 200 response is never cut by `snprintf`: a MIME type of the table
and the digits of a file size below `2 ^ 63` leave it well under 512 bytes. -/
theorem header_200_eq (mime : List Nat) (n : Nat) (hm : mime.length ≤ 25) (hn : n < 2 ^ 63) :
    header_200 mime n =
      bytes "HTTP/1.1 200 OK" ++ (bytes "\r\nContent-Type: " ++ (mime
        ++ (bytes "\r\nContent-Length: " ++ (decimal n
        ++ (bytes "\r\nConnection: " ++ bytes "close\r\n\r\n"))))) := by
  have hd := decimal_length n hn
  unfold header_200 snprintf
  have e1 : bytes "HTTP/1.1 200 OK\r\n" ++ bytes "Content-Type: " ++ mime ++ bytes "\r\n"
      ++ bytes "Content-Length: " ++ decimal n ++ bytes "\r\n" ++ bytes "Connection: close\r\n"
      ++ bytes "\r\n"
      = bytes "HTTP/1.1 200 OK" ++ (bytes "\r\nContent-Type: " ++ (mime
        ++ (bytes "\r\nContent-Length: " ++ (decimal n
        ++ (bytes "\r\nConnection: " ++ bytes "close\r\n\r\n"))))) := by
    have a1 : bytes "HTTP/1.1 200 OK\r\n" ++ bytes "Content-Type: "
        = bytes "HTTP/1.1 200 OK" ++ bytes "\r\nContent-Type: " := by decide
    have a2 : bytes "\r\n" ++ bytes "Content-Length: " = bytes "\r\nContent-Length: " := by
      decide
    have a3 : bytes "\r\n" ++ (bytes "Connection: close\r\n" ++ bytes "\r\n")
        = bytes "\r\nConnection: " ++ bytes "close\r\n\r\n" := by decide
    simp only [List.append_assoc]
    rw [← List.append_assoc (bytes "HTTP/1.1 200 OK\r\n"), a1, ← List.append_assoc (bytes "\r\n")
      (bytes "Content-Length: "), a2, a3]
    simp only [List.append_assoc]
  rw [e1]
  apply List.take_of_length_le
  have l1 : (bytes "HTTP/1.1 200 OK").length = 15 := by decide
  have l2 : (bytes "\r\nContent-Type: ").length = 16 := by decide
  have l3 : (bytes "\r\nContent-Length: ").length = 18 := by decide
  have l4 : (bytes "\r\nConnection: ").length = 14 := by decide
  have l5 : (bytes "close\r\n\r\n").length = 9 := by decide
  simp only [List.length_append, l1, l2, l3, l4, l5]
  omega

theorem has_header_of_eq (name head pre post : List Nat)
    (h : head = pre ++ ((bytes "\r\n" ++ name ++ bytes ": ") ++ post)) :
    has_header name head := by
  unfold has_header
  exact ⟨pre, post, by rw [h]; simp only [List.append_assoc]⟩

theorem header_200_headers (mime : List Nat) (n : Nat) (hm : mime.length ≤ 25)
    (hn : n < 2 ^ 63) :
    has_header (bytes "Content-Type") (header_200 mime n) ∧
    has_header (bytes "Content-Length") (header_200 mime n) ∧
    has_header (bytes "Connection") (header_200 mime n) := by
  have e := header_200_eq mime n hm hn
  have p1 : bytes "\r\nContent-Type: " = bytes "\r\n" ++ bytes "Content-Type" ++ bytes ": " := by
    decide
  have p2 : bytes "\r\nContent-Length: "
      = bytes "\r\n" ++ bytes "Content-Length" ++ bytes ": " := by decide
  have p3 : bytes "\r\nConnection: " = bytes "\r\n" ++ bytes "Connection" ++ bytes ": " := by
    decide
  refine ⟨?_, ?_, ?_⟩
  · apply has_header_of_eq _ _ (bytes "HTTP/1.1 200 OK")
      (mime ++ (bytes "\r\nContent-Length: " ++ (decimal n
        ++ (bytes "\r\nConnection: " ++ bytes "close\r\n\r\n"))))
    rw [e, p1]
  · apply has_header_of_eq _ _ (bytes "HTTP/1.1 200 OK" ++ (bytes "\r\nContent-Type: " ++ mime))
      (decimal n ++ (bytes "\r\nConnection: " ++ bytes "close\r\n\r\n"))
    rw [e, p2]
    simp only [List.append_assoc]
  · apply has_header_of_eq _ _ (bytes "HTTP/1.1 200 OK" ++ (bytes "\r\nContent-Type: " ++ (mime
        ++ (bytes "\r\nContent-Length: " ++ decimal n)))) (bytes "close\r\n\r\n")
    rw [e, p3]
    simp only [List.append_assoc]

set_option maxRecDepth 20000 in
/-- C10 (amended). Every response that `handle_connection` emits carries the headers
Content-Length and Connection; it carries Content-Type exactly when it is a 200 or a 404
response (file sizes being `off_t` values, below `2 ^ 63`). -/
theorem response_headers (fs : FileSystem) (buf head body : List Nat)
    (hsize : ∀ p f st, fs p = some f → f.fstat = some st → st.st_size < 2 ^ 63)
    (h : handle_connection fs buf = Outcome.sent head body) :
    has_header (bytes "Content-Length") head ∧ has_header (bytes "Connection") head ∧
    (has_header (bytes "Content-Type") head ↔
      (status (Outcome.sent head body) = some (bytes "200") ∨
        status (Outcome.sent head body) = some (bytes "404"))) := by
  have fixed400 : has_header (bytes "Content-Length") resp_400 ∧
      has_header (bytes "Connection") resp_400 ∧
      (has_header (bytes "Content-Type") resp_400 ↔
        (status (Outcome.sent resp_400 []) = some (bytes "200") ∨
          status (Outcome.sent resp_400 []) = some (bytes "404"))) := by decide
  by_cases hlen : buf.length ≤ 0
  · unfold handle_connection at h
    simp only [if_pos hlen] at h
    cases h
  · unfold handle_connection at h
    simp only [if_neg hlen] at h
    cases e1 : sscanf_request buf with
    | none =>
      simp only [e1] at h
      injection h with h1 h2; subst h1; subst h2; exact fixed400
    | some mpv =>
      obtain ⟨method, path, version⟩ := mpv
      simp only [e1] at h
      by_cases hm : method ≠ bytes "GET"
      · simp only [if_pos hm] at h
        injection h with h1 h2; subst h1; subst h2; decide
      · simp only [if_neg hm] at h
        cases e2 : safe_path [] (cstr (path.take 1023)) with
        | undefined => simp only [e2] at h; cases h
        | returns rp =>
          obtain ⟨ret, file_path⟩ := rp
          simp only [e2] at h
          by_cases hr : ret < 0
          · simp only [if_pos hr] at h
            injection h with h1 h2; subst h1; subst h2; exact fixed400
          · simp only [if_neg hr] at h
            cases e3 : fs file_path with
            | none =>
              simp only [e3] at h
              injection h with h1 h2; subst h1; subst h2; decide
            | some file =>
              cases e4 : file.fstat with
              | none => simp only [e3, e4] at h; cases h
              | some st =>
                simp only [e3, e4] at h
                by_cases hreg : st.is_reg = false
                · simp only [if_pos hreg] at h
                  injection h with h1 h2; subst h1; subst h2; decide
                · simp only [if_neg hreg] at h
                  injection h with h1 h2
                  subst h1
                  have hn := hsize _ _ _ e3 e4
                  have hh := header_200_headers (get_mime_type file_path) st.st_size
                    (get_mime_type_length _) hn
                  refine ⟨hh.2.1, hh.2.2, ⟨fun _ => Or.inl ?_, fun _ => hh.1⟩⟩
                  simp only [status, status_header_200]

theorem scenario_fs_sizes (p : List Nat) (f : OpenFile) (st : Stat)
    (h1 : scenario_fs p = some f) (h2 : f.fstat = some st) : st.st_size < 2 ^ 63 := by
  unfold scenario_fs at h1
  split at h1
  · injection h1 with h1; subst h1; injection h2 with h2; subst h2; decide
  · split at h1
    · injection h1 with h1; subst h1; injection h2 with h2; subst h2; decide
    · split at h1
      · injection h1 with h1; subst h1; injection h2 with h2; subst h2; decide
      · cases h1

set_option maxRecDepth 20000 in
theorem response_headers_witness :
    handle_connection scenario_fs (bytes "GET / HTTP/1.1")
      = Outcome.sent
          (bytes "HTTP/1.1 200 OK\r\nContent-Type: text/html; charset=utf-8\r\nContent-Length: 10\r\nConnection: close\r\n\r\n")
          (bytes "<p>hi</p>\n") ∧
    (has_header (bytes "Content-Length")
        (bytes "HTTP/1.1 200 OK\r\nContent-Type: text/html; charset=utf-8\r\nContent-Length: 10\r\nConnection: close\r\n\r\n") ∧
      has_header (bytes "Connection")
        (bytes "HTTP/1.1 200 OK\r\nContent-Type: text/html; charset=utf-8\r\nContent-Length: 10\r\nConnection: close\r\n\r\n") ∧
      (has_header (bytes "Content-Type")
          (bytes "HTTP/1.1 200 OK\r\nContent-Type: text/html; charset=utf-8\r\nContent-Length: 10\r\nConnection: close\r\n\r\n") ↔
        (status (Outcome.sent
            (bytes "HTTP/1.1 200 OK\r\nContent-Type: text/html; charset=utf-8\r\nContent-Length: 10\r\nConnection: close\r\n\r\n")
            (bytes "<p>hi</p>\n")) = some (bytes "200") ∨
          status (Outcome.sent
            (bytes "HTTP/1.1 200 OK\r\nContent-Type: text/html; charset=utf-8\r\nContent-Length: 10\r\nConnection: close\r\n\r\n")
            (bytes "<p>hi</p>\n")) = some (bytes "404")))) :=
  ⟨by decide,
    response_headers scenario_fs (bytes "GET / HTTP/1.1") _ _ scenario_fs_sizes (by decide)⟩

set_option maxRecDepth 20000 in
/-- C10 fails as stated: the 400, 405 and 403 responses carry no Content-Type header. -/
theorem response_content_type_counterexample :
    (handle_connection scenario_fs (bytes "GET /") = Outcome.sent resp_400 [] ∧
      ¬ has_header (bytes "Content-Type") resp_400) ∧
    (handle_connection scenario_fs (bytes "POST / HTTP/1.1") = Outcome.sent resp_405 [] ∧
      ¬ has_header (bytes "Content-Type") resp_405) ∧
    (handle_connection scenario_fs (bytes "GET /style.css HTTP/1.1")
        = Outcome.sent resp_403 [] ∧
      ¬ has_header (bytes "Content-Type") resp_403) := by
  decide

/-! ### The final segment and the extension -/

theorem last_occurrence (c : Nat) (s : List Nat) (h : c ∈ s) :
    ∃ pre ext, s = pre ++ c :: ext ∧ c ∉ ext := by
  induction s with
  | nil => cases h
  | cons x xs ih =>
    by_cases hx : c ∈ xs
    · obtain ⟨pre, ext, e, hn⟩ := ih hx
      exact ⟨x :: pre, ext, by rw [e]; rfl, hn⟩
    · have : c = x := by
        rcases List.mem_cons.1 h with e | e
        · exact e
        · exact absurd e hx
      subst this
      exact ⟨[], xs, rfl, hx⟩

theorem mime_table_keys_no_slash : ∀ k ∈ mime_table.map Prod.fst, 47 ∉ k := by decide

theorem get_mime_type_no_dot (s : List Nat) (h : 46 ∉ s) :
    get_mime_type s = bytes "application/octet-stream" := by
  unfold get_mime_type
  rw [strrchr_none 46 s h]

/-- C15. `get_mime_type` depends only on the final path segment: a path `dir/seg` gives what
its part `seg` after a `'/'` gives alone, in particular for `seg` the part after the last
`'/'`; so the lookup uses what follows the last `'.'` of the final segment, and a `'.'` that
occurs only before that `'/'` selects no table entry. -/
theorem get_mime_type_final_segment (dir seg : List Nat) :
    get_mime_type (dir ++ 47 :: seg) = get_mime_type seg ∧
    (46 ∉ seg → get_mime_type (dir ++ 47 :: seg) = bytes "application/octet-stream") := by
  have key : 46 ∉ seg → get_mime_type (dir ++ 47 :: seg) = bytes "application/octet-stream" := by
    intro hdot
    by_cases hd : 46 ∈ dir
    · obtain ⟨pre, e, he, hn⟩ := last_occurrence 46 dir hd
      have hn' : 46 ∉ e ++ 47 :: seg := by
        simp only [List.mem_append, List.mem_cons, not_or]
        exact ⟨hn, by decide, hdot⟩
      have hpath : dir ++ 47 :: seg = pre ++ 46 :: (e ++ 47 :: seg) := by
        rw [he]; simp
      rw [hpath, get_mime_type_of_dot pre _ hn']
      apply spec_mime_unknown
      intro hmem
      exact mime_table_keys_no_slash _ hmem (by simp)
    · apply get_mime_type_no_dot
      simp only [List.mem_append, List.mem_cons, not_or]
      exact ⟨hd, by decide, hdot⟩
  refine ⟨?_, key⟩
  by_cases hs : 46 ∈ seg
  · obtain ⟨pre, e, he, hn⟩ := last_occurrence 46 seg hs
    have hpath : dir ++ 47 :: seg = (dir ++ 47 :: pre) ++ 46 :: e := by
      rw [he]; simp
    rw [hpath, get_mime_type_of_dot _ e hn, he, get_mime_type_of_dot pre e hn]
  · rw [key hs, get_mime_type_no_dot seg hs]

theorem get_mime_type_final_segment_witness :
    get_mime_type (bytes "./a.html" ++ 47 :: bytes "file") = get_mime_type (bytes "file") ∧
    get_mime_type (bytes "./a.html/file") = bytes "application/octet-stream" ∧
    get_mime_type (bytes "./v1.2/app.js") = bytes "application/javascript" ∧
    get_mime_type (bytes "." ++ 47 :: bytes "index") = bytes "application/octet-stream" :=
  ⟨(get_mime_type_final_segment (bytes "./a.html") (bytes "file")).1,
    by decide, by decide,
    (get_mime_type_final_segment (bytes ".") (bytes "index")).2 (by decide)⟩

/-! ### The root target -/

/-- C16. `safe_path` returns 0 on the target `/` and on the empty target, and stores the same
path `./index.html` for both, whatever `out` held before. -/
theorem safe_path_root_and_empty (out : List Nat) :
    safe_path out (bytes "/") = CResult.returns (0, bytes "./index.html") ∧
    safe_path out (bytes "") = CResult.returns (0, bytes "./index.html") ∧
    safe_path out (bytes "/") = safe_path out (bytes "") := by
  refine ⟨rfl, rfl, rfl⟩

/-! ### Escapes that do not decode -/

theorem url_decode_plain (s : List Nat) (h37 : 37 ∉ s) (h43 : 43 ∉ s) :
    url_decode s = cstr s := by
  induction s with
  | nil => rw [url_decode_nil]; rfl
  | cons c cs ih =>
    have c37 : c ≠ 37 := fun e => h37 (e ▸ List.mem_cons_self _ _)
    have c43 : c ≠ 43 := fun e => h43 (e ▸ List.mem_cons_self _ _)
    have ih' := ih (fun m => h37 (List.mem_cons_of_mem _ m))
      (fun m => h43 (List.mem_cons_of_mem _ m))
    by_cases c0 : c = 0
    · subst c0
      rw [url_decode_nul]
      simp [cstr]
    · rw [url_decode_other c cs c0 c37 c43, ih']
      simp [cstr, c0]

/-- C17. A `'%'` that is not followed by two hex digits (also one that ends the string or has
a single byte after it) is copied unchanged and decoding goes on at the very next byte; an
input with neither `'%'` nor `'+'` decodes to itself. -/
theorem url_decode_literal_percent (pre rest : List Nat) (hpre : 0 ∉ pre)
    (hrest : ∀ a b r, rest = a :: b :: r → ¬ (HexDigit a ∧ HexDigit b)) :
    url_decode (pre ++ 37 :: rest) = url_decode pre ++ 37 :: url_decode rest ∧
    (37 ∉ pre → 43 ∉ pre → url_decode pre = pre) := by
  constructor
  · rw [url_decode_append pre hpre _ (Or.inr ⟨37, rest, rfl, by decide⟩)]
    congr 1
    apply url_decode_percent
    intro a b r e h
    refine hrest a b r e ⟨?_, ?_⟩
    · have := h.2.2.1
      unfold isxdigit at this
      simp only [Bool.or_eq_true, Bool.and_eq_true, decide_eq_true_eq] at this
      unfold HexDigit
      omega
    · have := h.2.2.2
      unfold isxdigit at this
      simp only [Bool.or_eq_true, Bool.and_eq_true, decide_eq_true_eq] at this
      unfold HexDigit
      omega
  · intro h37 h43
    rw [url_decode_plain pre h37 h43, cstr_of_no_nul pre hpre]

theorem url_decode_literal_percent_witness :
    url_decode (bytes "/a" ++ 37 :: bytes "zz/b")
      = url_decode (bytes "/a") ++ 37 :: url_decode (bytes "zz/b") ∧
    url_decode (bytes "%") = bytes "%" ∧ url_decode (bytes "%2") = bytes "%2" ∧
    url_decode (bytes "%zz") = bytes "%zz" ∧ url_decode (bytes "/100%") = bytes "/100%" ∧
    url_decode (bytes "/plain/path.txt") = bytes "/plain/path.txt" :=
  ⟨(url_decode_literal_percent (bytes "/a") (bytes "zz/b") (by decide)
      (by intro a b r e h
          simp only [bytes, String.toList, List.map, List.cons.injEq] at e
          obtain ⟨rfl, _⟩ := e
          exact absurd h.1 (by decide))).1,
    by decide, by decide, by decide, by decide,
    (url_decode_literal_percent (bytes "/plain/path.txt") [] (by decide)
      (by intro a b r e; cases e)).2 (by decide) (by decide)⟩
/-! ### The first byte, the cap on the parts, and short targets -/

theorem safe_path_parts_first_byte (c : Nat) (rest : List Nat) :
    safe_path_parts (c :: rest) = safe_path_parts (47 :: rest) := by
  unfold safe_path_parts
  by_cases hc : c = 47
  · subst hc; rfl
  · have h1 : (c :: rest).head? ≠ some 47 := by simpa using hc
    have h2 : ¬ ((47 :: rest).head? ≠ some 47) := by simp
    simp only [if_pos h1, if_neg h2, List.tail_cons]

theorem safe_path_tmp_slash : safe_path_tmp (bytes "/") = bytes "./index.html" := by decide

theorem safe_path_assembled_first_byte (inp inp' : List Nat) (c : Nat) (rest : List Nat)
    (hdec : cstr (url_decode inp) = c :: rest)
    (hdec' : cstr (url_decode inp') = 47 :: rest) :
    safe_path_assembled inp = safe_path_assembled inp' := by
  have hshape : ∀ x : Nat, safe_path_tmp (x :: rest) = safe_path_tmp (47 :: rest) := by
    intro x
    unfold safe_path_tmp
    rw [safe_path_parts_first_byte x rest]
  have hidx : ∀ d : List Nat, (if d = bytes "/" ∨ d.length = 0 then bytes "./index.html"
      else safe_path_tmp d) = if d.length = 0 then bytes "./index.html" else safe_path_tmp d := by
    intro d
    by_cases h1 : d = bytes "/"
    · subst h1
      rw [if_pos (Or.inl rfl), if_neg (by decide), safe_path_tmp_slash]
    · by_cases h2 : d.length = 0
      · rw [if_pos (Or.inr h2), if_pos h2]
      · rw [if_neg (by simp [h1, h2]), if_neg h2]
  unfold safe_path_assembled
  simp only [hdec, hdec']
  rw [hidx (c :: rest), hidx (47 :: rest)]
  have hz : ∀ x : Nat, ¬ ((x :: rest).length = 0) := by intro x; simp
  rw [if_neg (hz c), if_neg (hz 47), hshape c]

/-- C18. When the decoded target is not empty, `safe_path` puts `'/'` in the place of its
first byte `c` instead of prefixing one: the result is that of any target whose decoded form
is the same string with `'/'` for the first byte, so a first byte other than `'/'` is lost. -/
theorem safe_path_first_byte (out inp inp' : List Nat) (c : Nat) (rest : List Nat)
    (hlen : inp.length ≤ 1023) (hlen' : inp'.length ≤ 1023)
    (hdec : cstr (url_decode inp) = c :: rest)
    (hdec' : cstr (url_decode inp') = 47 :: rest) :
    safe_path out inp = safe_path out inp' := by
  rw [safe_path_by_length out inp hlen, safe_path_by_length out inp' hlen',
    safe_path_assembled_first_byte inp inp' c rest hdec hdec']

theorem safe_path_first_byte_witness :
    safe_path [] (bytes "foo/bar") = safe_path [] (bytes "/oo/bar") ∧
    safe_path [] (bytes "foo/bar") = CResult.returns (0, bytes "./oo/bar") ∧
    safe_path [] (bytes "x") = safe_path [] (bytes "/") ∧
    safe_path [] (bytes "x") = CResult.returns (0, bytes "./index.html") :=
  ⟨safe_path_first_byte [] (bytes "foo/bar") (bytes "/oo/bar") 102 (bytes "oo/bar")
      (by decide) (by decide) (by decide) (by decide),
    by decide,
    safe_path_first_byte [] (bytes "x") (bytes "/") 120 [] (by decide) (by decide) (by decide)
      (by decide),
    by decide⟩

theorem safe_path_loop_length_le (toks : List (List Nat)) :
    ∀ parts : List (List Nat), parts.length ≤ 255 →
      (safe_path_loop toks parts).length ≤ 255 := by
  induction toks with
  | nil => intro parts h; unfold safe_path_loop; exact h
  | cons tok toks ih =>
    intro parts h
    unfold safe_path_loop
    split
    · split
      · exact ih parts h
      · split
        · apply ih
          split
          · simp only [List.length_dropLast]; omega
          · exact h
        · apply ih
          simp only [List.length_append, List.length_cons, List.length_nil]
          omega
    · exact h

theorem safe_path_loop_stops (toks later : List (List Nat)) :
    ∀ parts : List (List Nat), (safe_path_loop toks parts).length = 255 →
      safe_path_loop (toks ++ later) parts = safe_path_loop toks parts := by
  induction toks with
  | nil =>
    intro parts h
    unfold safe_path_loop at h
    cases later with
    | nil => rfl
    | cons t ts =>
      simp only [List.nil_append]
      rw [safe_path_loop, safe_path_loop]
      rw [if_neg (by omega)]
  | cons tok toks ih =>
    intro parts h
    rw [List.cons_append]
    unfold safe_path_loop at h ⊢
    by_cases hl : parts.length < 255
    · simp only [if_pos hl] at h ⊢
      by_cases h1 : tok = bytes "" ∨ tok = bytes "."
      · simp only [if_pos h1] at h ⊢
        exact ih _ h
      · simp only [if_neg h1] at h ⊢
        by_cases h2 : tok = bytes ".."
        · simp only [if_pos h2] at h ⊢
          exact ih _ h
        · simp only [if_neg h2] at h ⊢
          exact ih _ h
    · simp only [if_neg hl]

/-- The two ways `safe_path` returns 0: with `./index.html`, or with `./` and the joined
parts, of which there is at least one. -/
theorem safe_path_success_cases (out inp p : List Nat)
    (h : safe_path out inp = CResult.returns (0, p)) :
    p = bytes "./index.html" ∨
      (safe_path_parts (cstr (url_decode inp)) ≠ [] ∧
        p = bytes "./" ++ join_parts (safe_path_parts (cstr (url_decode inp)))) := by
  unfold safe_path at h
  simp only at h
  split at h
  · cases h
  · split at h
    · injection h with h
      injection h with _ h
      exact Or.inl h.symm
    · split at h
      · cases h
      · split at h
        · injection h with h
          injection h with h _
          exact absurd h (by decide)
        · injection h with h
          injection h with _ h
          subst h
          unfold safe_path_tmp
          simp only
          by_cases hz : (safe_path_parts (cstr (url_decode inp))).length = 0
          · left
            rw [List.length_eq_zero.1 hz]
            rfl
          · right
            refine ⟨fun e => hz (by rw [e]; rfl), ?_⟩
            rw [if_neg hz, List.append_nil]

/-- C19. `safe_path` never returns more than 255 segments after the root, because the loop
stops reading the target as soon as 255 parts are on the stack: what comes later, a `..`
included, changes nothing. -/
theorem safe_path_at_most_255_segments (out inp p : List Nat)
    (h : safe_path out inp = CResult.returns (0, p)) :
    (∃ segs : List (List Nat), split_by (fun c => c == 47) p = bytes "." :: segs ∧
      segs.length ≤ 255) ∧
    (∀ toks later : List (List Nat), (safe_path_loop toks []).length = 255 →
      safe_path_loop (toks ++ later) [] = safe_path_loop toks []) := by
  refine ⟨?_, fun toks later hl => safe_path_loop_stops toks later [] hl⟩
  rcases safe_path_success_cases out inp p h with rfl | ⟨hne, rfl⟩
  · exact ⟨[bytes "index.html"], by decide, by decide⟩
  · refine ⟨safe_path_parts (cstr (url_decode inp)), ?_, ?_⟩
    · have hsplit := split_by_join_parts _ hne
        (fun q m => (safe_path_parts_good (cstr (url_decode inp)) q m).2.1)
      rw [bytes_dotslash, bytes_dot]
      simp only [List.cons_append, List.nil_append]
      rw [split_by]
      simp only [show ((46 : Nat) == 47) = false from by decide]
      rw [split_by]
      simp [hsplit]
    · unfold safe_path_parts
      exact safe_path_loop_length_le _ [] (by simp)

set_option maxRecDepth 100000 in
theorem safe_path_255_then_dotdot :
    safe_path [] ((List.replicate 255 (bytes "/a")).flatten ++ bytes "/..")
        = CResult.returns (0, 46 :: (List.replicate 255 (bytes "/a")).flatten) ∧
    split_by (fun c => c == 47) (46 :: (List.replicate 255 (bytes "/a")).flatten)
        = bytes "." :: List.replicate 255 (bytes "a") := by
  decide!

theorem safe_path_at_most_255_segments_witness :
    safe_path [] ((List.replicate 255 (bytes "/a")).flatten ++ bytes "/..")
        = CResult.returns (0, 46 :: (List.replicate 255 (bytes "/a")).flatten) ∧
    split_by (fun c => c == 47) (46 :: (List.replicate 255 (bytes "/a")).flatten)
        = bytes "." :: List.replicate 255 (bytes "a") ∧
    (∃ segs : List (List Nat),
      split_by (fun c => c == 47) (46 :: (List.replicate 255 (bytes "/a")).flatten)
        = bytes "." :: segs ∧ segs.length ≤ 255) :=
  ⟨safe_path_255_then_dotdot.1, safe_path_255_then_dotdot.2,
    (safe_path_at_most_255_segments [] _ _ safe_path_255_then_dotdot.1).1⟩

/-! ### The length of the assembled path -/

theorem cstr_length_le (s : List Nat) : (cstr s).length ≤ s.length := by
  induction s with
  | nil => simp [cstr]
  | cons c cs ih =>
    unfold cstr
    split
    · simp
    · simp only [List.length_cons]; omega

theorem weight_dropLast (l : List (List Nat)) :
    (l.dropLast.map (fun t => t.length + 1)).sum ≤ (l.map (fun t => t.length + 1)).sum := by
  induction l with
  | nil => simp
  | cons a as ih =>
    cases as with
    | nil => simp
    | cons b bs =>
      simp only [List.dropLast_cons₂, List.map_cons, List.sum_cons] at ih ⊢
      omega

theorem strtok_scan_weight (s : List Nat) :
    ∀ tok : List Nat,
      ((strtok_scan tok s).map (fun t => t.length + 1)).sum ≤ tok.length + s.length + 1 := by
  induction s with
  | nil =>
    intro tok
    unfold strtok_scan
    split <;> simp
  | cons c cs ih =>
    intro tok
    unfold strtok_scan
    split
    · split
      · have := ih []
        simp only [List.length_nil, List.length_cons] at this ⊢
        omega
      · have := ih []
        simp only [List.length_nil, List.length_cons, List.map_cons, List.sum_cons] at this ⊢
        omega
    · have := ih (tok ++ [c])
      simp only [List.length_append, List.length_cons, List.length_nil] at this ⊢
      omega

theorem safe_path_loop_weight (toks : List (List Nat)) :
    ∀ parts : List (List Nat),
      ((safe_path_loop toks parts).map (fun t => t.length + 1)).sum
        ≤ (parts.map (fun t => t.length + 1)).sum + (toks.map (fun t => t.length + 1)).sum := by
  induction toks with
  | nil => intro parts; unfold safe_path_loop; simp
  | cons tok toks ih =>
    intro parts
    unfold safe_path_loop
    simp only [List.map_cons, List.sum_cons]
    split
    · split
      · have := ih parts
        omega
      · split
        · have h1 := ih (if parts.length > 0 then parts.dropLast else parts)
          have h2 : ((if parts.length > 0 then parts.dropLast else parts).map
              (fun t => t.length + 1)).sum ≤ (parts.map (fun t => t.length + 1)).sum := by
            split
            · exact weight_dropLast parts
            · exact le_refl _
          omega
        · have := ih (parts ++ [tok])
          simp only [List.map_append, List.sum_append, List.map_cons, List.sum_cons,
            List.map_nil, List.sum_nil] at this
          omega
    · omega

theorem join_parts_length (l : List (List Nat)) (h : l ≠ []) :
    (join_parts l).length + 1 = (l.map (fun t => t.length + 1)).sum := by
  induction l with
  | nil => exact absurd rfl h
  | cons p ps ih =>
    cases ps with
    | nil => simp [join_parts]
    | cons q qs =>
      have := ih (by simp)
      unfold join_parts
      simp only [List.length_append, List.length_cons, List.map_cons, List.sum_cons] at this ⊢
      omega

theorem safe_path_tmp_length (dec : List Nat) (h : dec ≠ []) :
    (safe_path_tmp dec).length ≤ max 12 (dec.length + 1) := by
  obtain ⟨c, rest, rfl⟩ : ∃ c rest, dec = c :: rest := by
    cases dec with
    | nil => exact absurd rfl h
    | cons c rest => exact ⟨c, rest, rfl⟩
  unfold safe_path_tmp
  simp only
  rw [safe_path_parts_first_byte c rest]
  have hw : ((safe_path_parts (47 :: rest)).map (fun t => t.length + 1)).sum
      ≤ rest.length + 1 := by
    unfold safe_path_parts
    have h2 : ¬ ((47 :: rest).head? ≠ some 47) := by simp
    simp only [if_neg h2]
    have b : strtok_tokens (47 :: rest) = strtok_scan [] rest := by
      unfold strtok_tokens
      rw [strtok_scan]
      simp
    rw [b]
    have a := safe_path_loop_weight (strtok_scan [] rest) []
    have d := strtok_scan_weight rest []
    simp only [List.map_nil, List.sum_nil, List.length_nil] at a d
    omega
  have e2 : (bytes "./").length = 2 := by decide
  have e10 : (bytes "index.html").length = 10 := by decide
  by_cases hz : (safe_path_parts (47 :: rest)).length = 0
  · rw [if_pos hz, List.length_eq_zero.1 hz]
    simp only [join_parts, List.length_append, e2, e10, List.length_nil]
    omega
  · rw [if_neg hz]
    have hne : safe_path_parts (47 :: rest) ≠ [] := fun e => hz (by rw [e]; rfl)
    have hj := join_parts_length _ hne
    simp only [List.length_append, e2, List.length_nil, List.length_cons]
    omega

theorem safe_path_assembled_length (inp : List Nat) :
    (safe_path_assembled inp).length ≤ max 12 ((cstr (url_decode inp)).length + 1) := by
  unfold safe_path_assembled
  simp only
  split
  · have : (bytes "./index.html").length = 12 := by decide
    rw [this]
    omega
  · rename_i h
    apply safe_path_tmp_length
    intro e
    exact h (Or.inr (by rw [e]; rfl))

theorem scan_s_field_length (w : Nat) (s f rest : List Nat)
    (h : scan_s w s = some (f, rest)) : f.length ≤ w := by
  unfold scan_s at h
  simp only at h
  split at h
  · cases h
  · simp only [Option.some.injEq, Prod.mk.injEq] at h
    rw [← h.1, List.length_take]
    omega

theorem sscanf_request_path_length (buf method path version : List Nat)
    (h : sscanf_request buf = some (method, path, version)) : path.length ≤ 1023 := by
  unfold sscanf_request at h
  cases e1 : scan_s 15 (cstr buf) with
  | none => simp only [e1] at h; cases h
  | some fr1 =>
    obtain ⟨f1, r1⟩ := fr1
    simp only [e1] at h
    cases e2 : scan_s 1023 r1 with
    | none => simp only [e2] at h; cases h
    | some fr2 =>
      obtain ⟨f2, r2⟩ := fr2
      simp only [e2] at h
      cases e3 : scan_s 31 r2 with
      | none => simp only [e3] at h; cases h
      | some fr3 =>
        obtain ⟨f3, r3⟩ := fr3
        simp only [e3, Option.some.injEq, Prod.mk.injEq] at h
        rw [← h.2.1]
        exact scan_s_field_length 1023 r1 f2 r2 e2

set_option maxRecDepth 100000 in
theorem safe_path_1022_rejected :
    (47 :: List.replicate 1021 97).length = 1022 ∧
    safe_path [] (47 :: List.replicate 1021 97) = CResult.returns (-1, []) := by
  decide!

/-- C20 (amended). For every raw target of at most 1021 bytes `safe_path` returns 0:
decoding never lengthens the target, and the assembled path is at most one byte longer than
the decoded target or is the 12 bytes of `./index.html`.  The bound is tight (`/` followed by
1021 `a` is refused), and `safe_path` can return -1 to `handle_connection` only for a target
field of 1022 or 1023 bytes. -/
theorem safe_path_short_target (out inp : List Nat) (hlen : inp.length ≤ 1021) :
    (∃ p, safe_path out inp = CResult.returns (0, p)) ∧
    (url_decode inp).length ≤ inp.length ∧
    (safe_path_assembled inp).length ≤ max 12 ((cstr (url_decode inp)).length + 1) ∧
    ((47 :: List.replicate 1021 97).length = 1022 ∧
      safe_path [] (47 :: List.replicate 1021 97) = CResult.returns (-1, [])) ∧
    (∀ (buf method path version : List Nat) (ret : Int) (fp : List Nat),
      sscanf_request buf = some (method, path, version) →
      safe_path [] (cstr (path.take 1023)) = CResult.returns (ret, fp) → ret < 0 →
      path.length = 1022 ∨ path.length = 1023) := by
  have hd := url_decode_length_le inp
  have hc := cstr_length_le (url_decode inp)
  have ha := safe_path_assembled_length inp
  refine ⟨?_, hd, ha, safe_path_1022_rejected, ?_⟩
  · rw [safe_path_by_length out inp (by omega)]
    have h1 : ¬ ((safe_path_assembled inp).length ≥ 1024) := by omega
    have h2 : ¬ ((safe_path_assembled inp).length ≥ 1023) := by omega
    rw [if_neg h1, if_neg h2]
    exact ⟨_, rfl⟩
  · intro buf method path version ret fp hparse hsp hret
    have hp := sscanf_request_path_length buf method path version hparse
    have ht : (cstr (path.take 1023)).length ≤ path.length := by
      have := cstr_length_le (path.take 1023)
      simp only [List.length_take] at this
      omega
    have hd' := url_decode_length_le (cstr (path.take 1023))
    have hc' := cstr_length_le (url_decode (cstr (path.take 1023)))
    have ha' := safe_path_assembled_length (cstr (path.take 1023))
    rw [safe_path_by_length [] _ (by omega)] at hsp
    by_cases h1 : (safe_path_assembled (cstr (path.take 1023))).length ≥ 1024
    · rw [if_pos h1] at hsp; cases hsp
    · rw [if_neg h1] at hsp
      by_cases h2 : (safe_path_assembled (cstr (path.take 1023))).length ≥ 1023
      · omega
      · rw [if_neg h2] at hsp
        injection hsp with hsp
        injection hsp with hsp _
        omega

theorem safe_path_short_target_witness :
    (∃ p, safe_path [] (bytes "/docs/./a%20b/../index.html") = CResult.returns (0, p)) ∧
    safe_path [] (bytes "/docs/./a%20b/../index.html")
      = CResult.returns (0, bytes "./docs/index.html") :=
  ⟨(safe_path_short_target [] (bytes "/docs/./a%20b/../index.html") (by decide)).1, by decide⟩

/-- C20 fails as stated in its reason: for the targets `/` and `/..` the assembled path
`./index.html` is more than one byte longer than the decoded target. -/
theorem safe_path_assembled_longer_counterexample :
    ¬ ((safe_path_assembled (bytes "/")).length ≤ (cstr (url_decode (bytes "/"))).length + 1) ∧
    ¬ ((safe_path_assembled (bytes "/..")).length
        ≤ (cstr (url_decode (bytes "/.."))).length + 1) ∧
    safe_path_assembled (bytes "/..") = bytes "./index.html" := by
  decide

/-! ### Content-Length and the 200 header block -/

/-- The responses `handle_connection` can emit: the three fixed ones without a body, the 404
header block with its fixed body, and the 200 header block with the bytes of the file. -/
theorem handle_connection_sent_cases (fs : FileSystem) (buf head body : List Nat)
    (h : handle_connection fs buf = Outcome.sent head body) :
    (head = resp_400 ∧ body = []) ∨ (head = resp_405 ∧ body = []) ∨
    (head = resp_403 ∧ body = []) ∨ (head = header_404 ∧ body = notfound_body) ∨
    (∃ (fp : List Nat) (f : OpenFile) (st : Stat), fs fp = some f ∧ f.fstat = some st ∧
      st.is_reg = true ∧ head = header_200 (get_mime_type fp) st.st_size ∧
      body = f.content) := by
  by_cases hlen : buf.length ≤ 0
  · unfold handle_connection at h
    simp only [if_pos hlen] at h
    cases h
  · unfold handle_connection at h
    simp only [if_neg hlen] at h
    cases e1 : sscanf_request buf with
    | none =>
      simp only [e1] at h
      injection h with h1 h2
      exact Or.inl ⟨h1.symm, h2.symm⟩
    | some mpv =>
      obtain ⟨method, path, version⟩ := mpv
      simp only [e1] at h
      by_cases hm : method ≠ bytes "GET"
      · simp only [if_pos hm] at h
        injection h with h1 h2
        exact Or.inr (Or.inl ⟨h1.symm, h2.symm⟩)
      · simp only [if_neg hm] at h
        cases e2 : safe_path [] (cstr (path.take 1023)) with
        | undefined => simp only [e2] at h; cases h
        | returns rp =>
          obtain ⟨ret, file_path⟩ := rp
          simp only [e2] at h
          by_cases hr : ret < 0
          · simp only [if_pos hr] at h
            injection h with h1 h2
            exact Or.inl ⟨h1.symm, h2.symm⟩
          · simp only [if_neg hr] at h
            cases e3 : fs file_path with
            | none =>
              simp only [e3] at h
              injection h with h1 h2
              exact Or.inr (Or.inr (Or.inr (Or.inl ⟨h1.symm, h2.symm⟩)))
            | some file =>
              cases e4 : file.fstat with
              | none => simp only [e3, e4] at h; cases h
              | some st =>
                simp only [e3, e4] at h
                by_cases hreg : st.is_reg = false
                · simp only [if_pos hreg] at h
                  injection h with h1 h2
                  exact Or.inr (Or.inr (Or.inl ⟨h1.symm, h2.symm⟩))
                · simp only [if_neg hreg] at h
                  injection h with h1 h2
                  exact Or.inr (Or.inr (Or.inr (Or.inr
                    ⟨file_path, file, st, e3, e4, by simpa using hreg, h1.symm, h2.symm⟩)))

theorem has_header_value_of_eq (name value head pre post : List Nat)
    (h : head = pre ++ ((bytes "\r\n" ++ name ++ bytes ": " ++ value ++ bytes "\r\n") ++ post)) :
    has_header_value name value head := by
  unfold has_header_value
  exact ⟨pre, post, by rw [h]; simp only [List.append_assoc]⟩

theorem header_200_values (mime : List Nat) (n : Nat) (hm : mime.length ≤ 25)
    (hn : n < 2 ^ 63) :
    has_header_value (bytes "Content-Length") (decimal n) (header_200 mime n) ∧
    has_header_value (bytes "Connection") (bytes "close") (header_200 mime n) := by
  have e := header_200_eq mime n hm hn
  have p2 : bytes "\r\nContent-Length: "
      = bytes "\r\n" ++ bytes "Content-Length" ++ bytes ": " := by decide
  have p3 : bytes "\r\nConnection: " ++ bytes "close\r\n\r\n"
      = bytes "\r\n" ++ (bytes "Connection: close\r\n" ++ bytes "\r\n") := by decide
  have p4 : bytes "\r\nConnection: " ++ bytes "close\r\n\r\n"
      = bytes "\r\n" ++ bytes "Connection" ++ bytes ": " ++ bytes "close" ++ bytes "\r\n"
        ++ bytes "\r\n" := by decide
  constructor
  · apply has_header_value_of_eq _ _ _
      (bytes "HTTP/1.1 200 OK" ++ (bytes "\r\nContent-Type: " ++ mime))
      (bytes "Connection: close\r\n" ++ bytes "\r\n")
    rw [e, p3, p2]
    simp only [List.append_assoc]
  · apply has_header_value_of_eq _ _ _
      (bytes "HTTP/1.1 200 OK" ++ (bytes "\r\nContent-Type: " ++ (mime
        ++ (bytes "\r\nContent-Length: " ++ decimal n)))) (bytes "\r\n")
    rw [e, p4]
    simp only [List.append_assoc]

set_option maxRecDepth 20000 in
/-- C11. Every response that `handle_connection` emits has the header `Connection: close`
and a Content-Length header whose value is the number of body bytes: 0 with an empty body for
400, 403 and 405, 49 for the body of 404, and the size of the file for 200 (the filesystem
reporting as size of a file the number of its bytes); 404 and 200 also have Content-Type. -/
theorem response_content_length (fs : FileSystem) (buf head body : List Nat)
    (hfs : ∀ p f st, fs p = some f → f.fstat = some st → st.is_reg = true →
      st.st_size = f.content.length ∧ st.st_size < 2 ^ 63)
    (h : handle_connection fs buf = Outcome.sent head body) :
    has_header_value (bytes "Connection") (bytes "close") head ∧
    has_header_value (bytes "Content-Length") (decimal body.length) head ∧
    ((status (Outcome.sent head body) = some (bytes "400") ∨
      status (Outcome.sent head body) = some (bytes "403") ∨
      status (Outcome.sent head body) = some (bytes "405")) →
        body = [] ∧ decimal body.length = bytes "0") ∧
    (status (Outcome.sent head body) = some (bytes "404") →
        body = notfound_body ∧ decimal body.length = bytes "49" ∧
        has_header (bytes "Content-Type") head) ∧
    (status (Outcome.sent head body) = some (bytes "200") →
        has_header (bytes "Content-Type") head ∧
        ∃ fp f st, fs fp = some f ∧ f.fstat = some st ∧ body = f.content ∧
          body.length = st.st_size) := by
  rcases handle_connection_sent_cases fs buf head body h with
    ⟨rfl, rfl⟩ | ⟨rfl, rfl⟩ | ⟨rfl, rfl⟩ | ⟨rfl, rfl⟩ | ⟨fp, f, st, hf, hst, hreg, rfl, rfl⟩
  · exact ⟨by decide, by decide, by decide, by decide, fun hc => absurd hc (by decide)⟩
  · exact ⟨by decide, by decide, by decide, by decide, fun hc => absurd hc (by decide)⟩
  · exact ⟨by decide, by decide, by decide, by decide, fun hc => absurd hc (by decide)⟩
  · exact ⟨by decide, by decide, by decide, by decide, fun hc => absurd hc (by decide)⟩
  · obtain ⟨hsz, hn⟩ := hfs fp f st hf hst hreg
    have hv := header_200_values (get_mime_type fp) st.st_size (get_mime_type_length _) hn
    have hh := header_200_headers (get_mime_type fp) st.st_size (get_mime_type_length _) hn
    have hs : status (Outcome.sent (header_200 (get_mime_type fp) st.st_size) f.content)
        = some (bytes "200") := by
      simp only [status, status_header_200]
    refine ⟨hv.2, by rw [← hsz]; exact hv.1, ?_, ?_, ?_⟩
    · intro hcase
      rw [hs] at hcase
      exact absurd hcase (by decide)
    · intro hcase
      rw [hs] at hcase
      exact absurd hcase (by decide)
    · intro _
      exact ⟨hh.1, fp, f, st, hf, hst, rfl, hsz.symm⟩

theorem scenario_fs_regular (p : List Nat) (f : OpenFile) (st : Stat)
    (h1 : scenario_fs p = some f) (h2 : f.fstat = some st) (h3 : st.is_reg = true) :
    st.st_size = f.content.length ∧ st.st_size < 2 ^ 63 := by
  unfold scenario_fs at h1
  split at h1
  · injection h1 with h1; subst h1; injection h2 with h2; subst h2; decide
  · split at h1
    · injection h1 with h1; subst h1; injection h2 with h2; subst h2
      exact ⟨(List.length_replicate 500 59).symm, by show 500 < 2 ^ 63; norm_num⟩
    · split at h1
      · injection h1 with h1; subst h1; injection h2 with h2; subst h2; cases h3
      · cases h1

set_option maxRecDepth 20000 in
theorem response_content_length_witness :
    handle_connection scenario_fs (bytes "GET /nothing HTTP/1.1")
      = Outcome.sent header_404 notfound_body ∧
    has_header_value (bytes "Connection") (bytes "close") header_404 ∧
    has_header_value (bytes "Content-Length") (decimal notfound_body.length) header_404 ∧
    decimal notfound_body.length = bytes "49" ∧
    has_header_value (bytes "Content-Length") (bytes "500")
      (header_200 (bytes "application/javascript") 500) :=
  ⟨by decide,
    (response_content_length scenario_fs (bytes "GET /nothing HTTP/1.1") header_404
      notfound_body scenario_fs_regular (by decide)).1,
    (response_content_length scenario_fs (bytes "GET /nothing HTTP/1.1") header_404
      notfound_body scenario_fs_regular (by decide)).2.1,
    by decide, by decide⟩

/-- The header block of a 200 response as `snprintf` stores it, uncut. -/
theorem header_200_exact (mime : List Nat) (n : Nat) (hm : mime.length ≤ 25)
    (hn : n < 2 ^ 63) :
    header_200 mime n =
      bytes "HTTP/1.1 200 OK\r\n" ++ bytes "Content-Type: " ++ mime ++ bytes "\r\n"
        ++ bytes "Content-Length: " ++ decimal n ++ bytes "\r\n"
        ++ bytes "Connection: close\r\n" ++ bytes "\r\n" := by
  have hd := decimal_length n hn
  unfold header_200 snprintf
  apply List.take_of_length_le
  have l1 : (bytes "HTTP/1.1 200 OK\r\n").length = 17 := by decide
  have l2 : (bytes "Content-Type: ").length = 14 := by decide
  have l3 : (bytes "\r\n").length = 2 := by decide
  have l4 : (bytes "Content-Length: ").length = 16 := by decide
  have l5 : (bytes "Connection: close\r\n").length = 19 := by decide
  simp only [List.length_append, l1, l2, l3, l4, l5]
  omega

/-- C12. For a GET request whose resolved path opens as a regular file of size `n`, the
header block is exactly the status line `HTTP/1.1 200 OK`, then `Content-Type: ` with
`get_mime_type` of the resolved path, `Content-Length: ` with `n` in decimal and
`Connection: close`, each ended by CRLF, then an empty line; the body is the file. -/
theorem handle_connection_200 (fs : FileSystem) (buf path version file_path : List Nat)
    (file : OpenFile) (n : Nat)
    (hparse : sscanf_request buf = some (bytes "GET", path, version))
    (hpath : safe_path [] (cstr (path.take 1023)) = CResult.returns (0, file_path))
    (hopen : fs file_path = some file)
    (hstat : file.fstat = some ⟨true, n⟩) (hn : n < 2 ^ 63) :
    handle_connection fs buf =
      Outcome.sent
        (bytes "HTTP/1.1 200 OK\r\n" ++ bytes "Content-Type: " ++ get_mime_type file_path
          ++ bytes "\r\n" ++ bytes "Content-Length: " ++ decimal n ++ bytes "\r\n"
          ++ bytes "Connection: close\r\n" ++ bytes "\r\n")
        file.content := by
  have hlen : ¬ (buf.length ≤ 0) := by
    cases buf with
    | nil => rw [sscanf_request_nil] at hparse; cases hparse
    | cons a as => simp
  have hm : ¬ (bytes "GET" ≠ bytes "GET") := fun h => h rfl
  have hr : ¬ ((0 : Int) < 0) := by decide
  have hreg : ¬ (true = false) := by decide
  unfold handle_connection
  simp only [if_neg hlen, hparse, if_neg hm, hpath, if_neg hr, hopen, hstat, if_neg hreg]
  rw [header_200_exact _ n (get_mime_type_length _) hn]

set_option maxRecDepth 20000 in
theorem handle_connection_200_witness :
    handle_connection scenario_fs (bytes "GET / HTTP/1.1") =
      Outcome.sent
        (bytes "HTTP/1.1 200 OK\r\n" ++ bytes "Content-Type: "
          ++ get_mime_type (bytes "./index.html")
          ++ bytes "\r\n" ++ bytes "Content-Length: " ++ decimal 10 ++ bytes "\r\n"
          ++ bytes "Connection: close\r\n" ++ bytes "\r\n")
        (bytes "<p>hi</p>\n") ∧
    get_mime_type (bytes "./index.html") = bytes "text/html; charset=utf-8" ∧
    decimal 10 = bytes "10" ∧
    handle_connection scenario_fs (bytes "GET /app.js HTTP/1.1") =
      Outcome.sent
        (bytes "HTTP/1.1 200 OK\r\nContent-Type: application/javascript\r\nContent-Length: 500\r\nConnection: close\r\n\r\n")
        (List.replicate 500 59) :=
  ⟨handle_connection_200 scenario_fs (bytes "GET / HTTP/1.1") (bytes "/") (bytes "HTTP/1.1")
      (bytes "./index.html") ⟨some ⟨true, 10⟩, bytes "<p>hi</p>\n"⟩ 10
      (by decide) (by decide) (by decide) (by decide) (by decide),
    by decide, by decide, by decide!⟩

/-! ### The streaming loop -/

theorem send_loop_complete (env : StreamEnv)
    (hsend : ∀ k len, 0 < len → 1 ≤ env.send_ret k len ∧ env.send_ret k len ≤ len) :
    ∀ (fuel k : Nat) (pending out : List Nat), pending.length + 1 ≤ fuel →
      ∃ k1, send_loop env fuel k pending out = some (true, k1, out ++ pending) := by
  intro fuel
  induction fuel with
  | zero => intro k pending out h; omega
  | succ fuel ih =>
    intro k pending out h
    unfold send_loop
    by_cases hp : pending.length ≤ 0
    · rw [if_pos hp]
      have : pending = [] := List.length_eq_zero.1 (by omega)
      subst this
      exact ⟨k, by simp⟩
    · rw [if_neg hp]
      obtain ⟨h1, h2⟩ := hsend k pending.length (by omega)
      have hneg : ¬ (env.send_ret k pending.length < 0) := by omega
      simp only [if_neg hneg]
      have hdrop : (pending.drop (env.send_ret k pending.length).toNat).length + 1 ≤ fuel := by
        rw [List.length_drop]
        omega
      obtain ⟨k1, e⟩ := ih (k + 1) (pending.drop (env.send_ret k pending.length).toNat)
        (out ++ pending.take (env.send_ret k pending.length).toNat) hdrop
      refine ⟨k1, ?_⟩
      rw [e, List.append_assoc, List.take_append_drop]

theorem stream_loop_all (env : StreamEnv)
    (hread : ∀ k avail, 0 < avail →
      1 ≤ env.read_ret k avail ∧ env.read_ret k avail ≤ min 8192 avail)
    (heof : ∀ k, env.read_ret k 0 ≤ 0)
    (hsend : ∀ k len, 0 < len → 1 ≤ env.send_ret k len ∧ env.send_ret k len ≤ len) :
    ∀ (fuel kr ks : Nat) (file out : List Nat), file.length + 2 ≤ fuel →
      stream_loop env fuel kr ks file out = some (out ++ file) := by
  intro fuel
  induction fuel with
  | zero => intro kr ks file out h; omega
  | succ fuel ih =>
    intro kr ks file out h
    unfold stream_loop
    by_cases hf : file.length = 0
    · have hnil : file = [] := List.length_eq_zero.1 hf
      subst hnil
      have := heof kr
      simp only [List.length_nil, if_pos this, List.append_nil]
    · obtain ⟨h1, h2⟩ := hread kr file.length (by omega)
      have hpos : ¬ (env.read_ret kr file.length ≤ 0) := by omega
      simp only [if_neg hpos]
      have hchunk : (file.take (env.read_ret kr file.length).toNat).length + 1 ≤ fuel := by
        rw [List.length_take]
        omega
      obtain ⟨k1, e⟩ := send_loop_complete env hsend fuel ks
        (file.take (env.read_ret kr file.length).toNat) out hchunk
      rw [e]
      simp only
      have hrest : (file.drop (env.read_ret kr file.length).toNat).length + 2 ≤ fuel := by
        rw [List.length_drop]
        omega
      rw [ih (kr + 1) k1 _ _ hrest, List.append_assoc, List.take_append_drop]

/-- C13. In the 200 branch, whatever chunks of 1 to 8192 bytes the reads deliver (0 at the
end of the file) and whatever positive number of the offered bytes each `send` accepts, the
streaming loop ends (any fuel above the file length plus one is enough) and the bytes sent
after the header block are exactly the bytes of the file, in order. -/
theorem stream_loop_sends_file (env : StreamEnv) (content : List Nat)
    (hread : ∀ k avail, 0 < avail →
      1 ≤ env.read_ret k avail ∧ env.read_ret k avail ≤ min 8192 avail)
    (heof : ∀ k, env.read_ret k 0 ≤ 0)
    (hsend : ∀ k len, 0 < len → 1 ≤ env.send_ret k len ∧ env.send_ret k len ≤ len)
    (fuel : Nat) (hfuel : content.length + 2 ≤ fuel) :
    stream_loop env fuel 0 0 content [] = some content := by
  rw [stream_loop_all env hread heof hsend fuel 0 0 content [] hfuel]
  rfl

theorem stream_loop_sends_file_witness :
    stream_loop ⟨fun _ avail => ((min 3 avail : Nat) : Int), fun k len => if k % 2 = 0 then 1 else ((min 2 len : Nat) : Int)⟩
      13 0 0 (bytes "hello world") [] = some (bytes "hello world") :=
  stream_loop_sends_file
    ⟨fun _ avail => ((min 3 avail : Nat) : Int), fun k len => if k % 2 = 0 then 1 else ((min 2 len : Nat) : Int)⟩
    (bytes "hello world")
    (by intro k avail h; simp only; omega)
    (by intro k; simp)
    (by intro k len h; simp only; split <;> omega)
    13 (by decide)

/-! ### Tokens longer than their field -/

theorem handle_connection_other_method (fs : FileSystem) (buf method path version : List Nat)
    (hparse : sscanf_request buf = some (method, path, version))
    (hmethod : method ≠ bytes "GET") :
    handle_connection fs buf = Outcome.sent resp_405 [] := by
  have hlen : ¬ (buf.length ≤ 0) := by
    cases buf with
    | nil => rw [sscanf_request_nil] at hparse; cases hparse
    | cons a as => simp
  unfold handle_connection
  simp only [if_neg hlen, hparse, if_pos hmethod]

theorem sscanf_request_long_method (buf t : List Nat) (ts : List (List Nat))
    (htok : ws_tokens buf = t :: ts) (hlong : 15 < t.length) (hts : ts ≠ []) :
    ∃ v, sscanf_request buf = some (t.take 15, (t.drop 15).take 1023, v) := by
  unfold ws_tokens at htok
  rcases scan_s_tokens 15 (by decide) (cstr buf) with ⟨h0, _⟩ | ⟨t1, ts1, r1, h1, e1, hr1⟩
  · rw [h0] at htok; cases htok
  · rw [h1] at htok
    injection htok with ht hts1
    subst ht; subst hts1
    rw [if_neg (by omega)] at hr1
    rcases scan_s_tokens 1023 (by decide) r1 with ⟨h0, _⟩ | ⟨t2, ts2, r2, h2, e2, hr2⟩
    · rw [h0] at hr1; cases hr1
    · rw [h2] at hr1
      injection hr1 with ht2 hts2
      subst ht2; subst hts2
      have hl : 1 ≤ ((split_by isspace r2).filter (fun x => x ≠ [])).length := by
        rw [hr2]
        have : 1 ≤ ts2.length := by
          cases ts2 with
          | nil => exact absurd rfl hts
          | cons a as => simp
        split
        · exact this
        · simp only [List.length_cons]; omega
      obtain ⟨f3, r3, e3, _⟩ := scan_s_of_tokens 31 (by decide) r2 0 hl
      exact ⟨f3, by simp only [sscanf_request, e1, e2, e3]⟩

theorem sscanf_request_long_target (buf t u : List Nat) (us : List (List Nat))
    (htok : ws_tokens buf = t :: u :: us) (ht : t.length ≤ 15) (hlong : 1023 < u.length) :
    sscanf_request buf = some (t, u.take 1023, (u.drop 1023).take 31) := by
  unfold ws_tokens at htok
  rcases scan_s_tokens 15 (by decide) (cstr buf) with ⟨h0, _⟩ | ⟨t1, ts1, r1, h1, e1, hr1⟩
  · rw [h0] at htok; cases htok
  · rw [h1] at htok
    injection htok with e he
    subst e; subst he
    rw [if_pos ht] at hr1
    rw [List.take_of_length_le ht] at e1
    rcases scan_s_tokens 1023 (by decide) r1 with ⟨h0, _⟩ | ⟨t2, ts2, r2, h2, e2, hr2⟩
    · rw [h0] at hr1; cases hr1
    · rw [h2] at hr1
      injection hr1 with e he
      subst e; subst he
      rw [if_neg (by omega)] at hr2
      rcases scan_s_tokens 31 (by decide) r2 with ⟨h0, _⟩ | ⟨t3, ts3, r3, h3, e3, _⟩
      · rw [h0] at hr2; cases hr2
      · rw [h3] at hr2
        injection hr2 with e he
        subst e
        simp only [sscanf_request, e1, e2, e3]

theorem sscanf_request_three_fit (buf t u v : List Nat) (vs : List (List Nat))
    (htok : ws_tokens buf = t :: u :: v :: vs) (ht : t.length ≤ 15) (hu : u.length ≤ 1023) :
    sscanf_request buf = some (t, u, v.take 31) := by
  unfold ws_tokens at htok
  rcases scan_s_tokens 15 (by decide) (cstr buf) with ⟨h0, _⟩ | ⟨t1, ts1, r1, h1, e1, hr1⟩
  · rw [h0] at htok; cases htok
  · rw [h1] at htok
    injection htok with e he
    subst e; subst he
    rw [if_pos ht] at hr1
    rw [List.take_of_length_le ht] at e1
    rcases scan_s_tokens 1023 (by decide) r1 with ⟨h0, _⟩ | ⟨t2, ts2, r2, h2, e2, hr2⟩
    · rw [h0] at hr1; cases hr1
    · rw [h2] at hr1
      injection hr1 with e he
      subst e; subst he
      rw [if_pos hu] at hr2
      rw [List.take_of_length_le hu] at e2
      rcases scan_s_tokens 31 (by decide) r2 with ⟨h0, _⟩ | ⟨t3, ts3, r3, h3, e3, _⟩
      · rw [h0] at hr2; cases hr2
      · rw [h3] at hr2
        injection hr2 with e he
        subst e
        simp only [sscanf_request, e1, e2, e3]

/-- C14 (amended). A token longer than its field is not rejected; `sscanf` cuts it at the
field width and reads what is left of it as the next field.  With a method token of more
than 15 bytes and one more token the buffer parses and is answered with 405; with a target
token of more than 1023 bytes the target is its first 1023 bytes and the version comes from
its rest; with a version token of more than 31 bytes the version is its first 31 bytes. -/
theorem sscanf_request_cuts_tokens (fs : FileSystem) (buf t : List Nat)
    (ts : List (List Nat)) (htok : ws_tokens buf = t :: ts) :
    (15 < t.length → ts ≠ [] →
      (∃ v, sscanf_request buf = some (t.take 15, (t.drop 15).take 1023, v)) ∧
      handle_connection fs buf = Outcome.sent resp_405 []) ∧
    (∀ u us, ts = u :: us → t.length ≤ 15 → 1023 < u.length →
      sscanf_request buf = some (t, u.take 1023, (u.drop 1023).take 31)) ∧
    (∀ u v vs, ts = u :: v :: vs → t.length ≤ 15 → u.length ≤ 1023 →
      sscanf_request buf = some (t, u, v.take 31)) := by
  refine ⟨?_, ?_, ?_⟩
  · intro hlong hts
    obtain ⟨v, hv⟩ := sscanf_request_long_method buf t ts htok hlong hts
    refine ⟨⟨v, hv⟩, handle_connection_other_method fs buf _ _ _ hv ?_⟩
    intro e
    have := congrArg List.length e
    rw [List.length_take] at this
    have h3 : (bytes "GET").length = 3 := by decide
    omega
  · intro u us e ht hlong
    subst e
    exact sscanf_request_long_target buf t u us htok ht hlong
  · intro u v vs e ht hu
    subst e
    exact sscanf_request_three_fit buf t u v vs htok ht hu

theorem sscanf_request_cuts_tokens_witness :
    sscanf_request (bytes "AAAAAAAAAAAAAAAAB /x HTTP/1.1")
      = some (bytes "AAAAAAAAAAAAAAA", bytes "AB", bytes "/x") ∧
    handle_connection scenario_fs (bytes "AAAAAAAAAAAAAAAAB /x HTTP/1.1")
      = Outcome.sent resp_405 [] ∧
    sscanf_request (bytes "GET / HTTP/1.1-with-a-version-token-of-41-bytes")
      = some (bytes "GET", bytes "/", bytes "HTTP/1.1-with-a-version-token-o") :=
  ⟨by decide,
    ((sscanf_request_cuts_tokens scenario_fs (bytes "AAAAAAAAAAAAAAAAB /x HTTP/1.1")
      (bytes "AAAAAAAAAAAAAAAAB") [bytes "/x", bytes "HTTP/1.1"] (by decide)).1
        (by decide) (by decide)).2,
    (sscanf_request_cuts_tokens scenario_fs
      (bytes "GET / HTTP/1.1-with-a-version-token-of-41-bytes") (bytes "GET")
      [bytes "/", bytes "HTTP/1.1-with-a-version-token-of-41-bytes"] (by decide)).2.2
        (bytes "/") (bytes "HTTP/1.1-with-a-version-token-of-41-bytes") [] rfl
        (by decide) (by decide)⟩

set_option maxRecDepth 100000 in
/-- C14 fails as stated: a 17-byte method token is answered with 405, and a request with a
41-byte version token or with a 1024-byte target token is served with 200; none gets 400. -/
theorem oversized_token_counterexample :
    ((ws_tokens (bytes "AAAAAAAAAAAAAAAAB /x HTTP/1.1")).head?.map List.length = some 17 ∧
      status (handle_connection scenario_fs (bytes "AAAAAAAAAAAAAAAAB /x HTTP/1.1"))
        = some (bytes "405")) ∧
    (((ws_tokens (bytes "GET / HTTP/1.1-with-a-version-token-of-41-bytes")).drop 2).head?.map
        List.length = some 41 ∧
      status (handle_connection scenario_fs
        (bytes "GET / HTTP/1.1-with-a-version-token-of-41-bytes")) = some (bytes "200")) ∧
    (((ws_tokens (bytes "GET " ++ List.replicate 1024 47 ++ bytes " HTTP/1.1")).drop 1).head?.map
        List.length = some 1024 ∧
      status (handle_connection scenario_fs
        (bytes "GET " ++ List.replicate 1024 47 ++ bytes " HTTP/1.1")) = some (bytes "200")) := by
  decide!

end MiniHttp
